import Mathlib

/-!
Shallow embedding of the collection pipeline of the
Social-Computing-Notebooks repository
(src/method-1-youtube/scripts: youtube_scraper.py, yt_topup.py,
rappler_scraper.py).

Network collaborators (YouTube Data API search / videos.list /
commentThreads.list, HTTP fetches of listing and article pages) are modeled
as environment records supplying the data the scripts consume.  Python
dicts are modeled as association lists in insertion order (CPython dicts
iterate in insertion order, which the selection code relies on for
discovery order).  `list.sort(key=..., reverse=True)` is modeled by a
stable insertion sort on a `Nat` key, descending, matching CPython's
stable sort.  Exceptions raised by the scripts are modeled with
`Except Unit`.
-/

set_option autoImplicit false

/-- Python dict lookup on an insertion-ordered association list
(first matching key wins; all maps built below have unique keys). -/
def lookupV {α : Type} : List (String × α) → String → Option α
  | [], _ => none
  | (k, v) :: rest, key => if k = key then some v else lookupV rest key

/-- `d[k] = v` on a Python dict: replace the value of an existing key in
place (keeping its position), or append the new key at the end --- exactly
the combined effect of `d.setdefault(k, ...)` followed by `d[k] = v`. -/
def setB {α : Type} : List (String × α) → String → α → List (String × α)
  | [], key, v => [(key, v)]
  | (k, u) :: rest, key, v =>
    if k = key then (key, v) :: rest else (k, u) :: setB rest key v

/-- `d.setdefault(k, []).append(x)` on a dict of lists. -/
def appendB : List (String × List String) → String → String → List (String × List String)
  | [], key, v => [(key, [v])]
  | (k, u) :: rest, key, v =>
    if k = key then (k, u ++ [v]) :: rest else (k, u) :: appendB rest key v

/-- Deduplication keeping the first occurrence of each element (the effect
of feeding a sequence into a Python dict or set). -/
def dedupFirstAux (seen : List String) : List String → List String
  | [] => []
  | x :: xs =>
    if x ∈ seen then dedupFirstAux seen xs
    else x :: dedupFirstAux (x :: seen) xs

def dedupFirst (l : List String) : List String := dedupFirstAux [] l

/-- `s.add(x)` on a Python set (membership is all that is ever observed). -/
def insertS (l : List String) (v : String) : List String :=
  if v ∈ l then l else v :: l

/-- One step of a stable insertion sort by a `Nat` key, descending.  An
element is placed before the first element whose key is `≤` its own, so
earlier elements stay before later elements with an equal key --- the
behavior of CPython's stable `sort(key=..., reverse=True)`. -/
def insDesc {α : Type} (key : α → Nat) (x : α) : List α → List α
  | [] => [x]
  | y :: ys => if key y ≤ key x then x :: y :: ys else y :: insDesc key x ys

/-- Stable sort by a `Nat` key, descending. -/
def sortDesc {α : Type} (key : α → Nat) (l : List α) : List α :=
  l.foldr (insDesc key) []

/-! ## Data model (youtube_scraper.py / yt_topup.py) -/

/-- The per-video metadata returned by `videos.list(part='snippet,statistics')`
and consumed by `video_stats` in both scripts: comment count, owning
channel id/title, video title, publish timestamp. -/
structure VMeta where
  commentCount : Nat
  channelId : String
  channelTitle : String
  title : String
  publishedAt : String
deriving DecidableEq

/-- One comment as it appears in a `commentThreads.list` item snippet. -/
structure YComment where
  id : String
  textDisplay : String
  textOriginal : String
  publishedAt : String
  likeCount : Nat
  authorChannelId : Option String
  authorDisplayName : String
deriving DecidableEq

/-- One comment thread: a top-level comment plus its replies, in the order
the API returns them. -/
structure CommentThread where
  top : YComment
  replies : List YComment
deriving DecidableEq

/-- The CommentRow dict built by `fetch_comments_for_video` (scraper) and
`fetch_comments` (top-up).  The two uploader fields exist only in the
top-up variant; in scraper rows they simply stay `none`. -/
structure CommentRow where
  title : String
  link : String
  date_published : String
  text : String
  like_count : Nat
  reply_parent_id : Option String
  channel_id : Option String
  channel_title : String
  video_id : String
  video_title : Option String
  comment_id : String
  author : String
  is_reply : Bool
  video_uploader_channel_id : Option String := none
  video_uploader_channel_title : Option String := none
deriving DecidableEq

/-- Environment of youtube_scraper.py: `search_videos` keyed by the
ordering strategy, and the ground-truth per-video statistics that
`videos.list` reports.  A video id missing from `stats` is simply absent
from any probe result. -/
structure YTEnv where
  search : String → List String
  stats : String → Option VMeta

/-- `video_stats`: probe a list of video ids and build the id → metadata
dict, in request order, keeping the first occurrence of a duplicated id
and silently skipping ids the API does not know. -/
def videoStatsOn (f : String → Option VMeta) (ids : List String) : List (String × VMeta) :=
  (dedupFirst ids).filterMap (fun v => (f v).map (fun m => (v, m)))

def video_stats (env : YTEnv) (ids : List String) : List (String × VMeta) :=
  videoStatsOn env.stats ids

/-! ## Comment collector (fetch_comments_for_video / fetch_comments) -/

/-- The row emitted for a top-level comment (`reply_parent_id = None`,
`is_reply = False`). -/
def topRow (vid : String) (c : YComment) : CommentRow :=
  { title := c.textDisplay
  , link := "https://www.youtube.com/watch?v=" ++ vid ++ "&lc=" ++ c.id
  , date_published := c.publishedAt
  , text := c.textOriginal
  , like_count := c.likeCount
  , reply_parent_id := none
  , channel_id := c.authorChannelId
  , channel_title := c.authorDisplayName
  , video_id := vid
  , video_title := none
  , comment_id := c.id
  , author := c.authorDisplayName
  , is_reply := false }

/-- The row emitted for a reply (`reply_parent_id` = the id of the
thread's top-level comment, `is_reply = True`). -/
def replyRow (vid : String) (parentId : String) (c : YComment) : CommentRow :=
  { title := c.textDisplay
  , link := "https://www.youtube.com/watch?v=" ++ vid ++ "&lc=" ++ c.id
  , date_published := c.publishedAt
  , text := c.textOriginal
  , like_count := c.likeCount
  , reply_parent_id := some parentId
  , channel_id := c.authorChannelId
  , channel_title := c.authorDisplayName
  , video_id := vid
  , video_title := none
  , comment_id := c.id
  , author := c.authorDisplayName
  , is_reply := true }

/-- All rows of one thread: the top-level row followed by one row per
reply, in the order the replies are returned. -/
def threadRows (vid : String) (t : CommentThread) : List CommentRow :=
  topRow vid t.top :: t.replies.map (replyRow vid t.top.id)

def flatRows (vid : String) : List CommentThread → List CommentRow
  | [] => []
  | t :: ts => threadRows vid t ++ flatRows vid ts

def threadsOf : List (List CommentThread) → List CommentThread
  | [] => []
  | p :: ps => p ++ threadsOf ps

/-- Number of rows a thread contributes (1 top-level + replies). -/
def threadLen (t : CommentThread) : Nat := 1 + t.replies.length

def pageLen (p : List CommentThread) : Nat := (p.map threadLen).sum

/-- Total rows the source holds across all pages. -/
def totalAvail (ps : List (List CommentThread)) : Nat :=
  ((threadsOf ps).map threadLen).sum

/-- Inner `for item in resp['items']` loop: emit the rows of each thread,
incrementing `fetched`, and break out as soon as `fetched >= target`
holds after a thread (so a thread is never truncated mid-way).  Returns
the emitted rows and the updated `fetched` counter. -/
def procThreads (vid : String) : List CommentThread → Nat → Nat → List CommentRow × Nat
  | [], fetched, _ => ([], fetched)
  | t :: rest, fetched, target =>
    let rows := threadRows vid t
    let f := fetched + rows.length
    if target ≤ f then (rows, f)
    else
      let (rs, f2) := procThreads vid rest f target
      (rows ++ rs, f2)

/-- Outer `while True` pagination loop.  Each iteration performs one
`commentThreads.list` request (counted in the second component); the loop
stops once `fetched >= target` or the response carries no
`nextPageToken` (modeled by the page list running out).  A call on an
already-exhausted cursor (`pages = []`) models a response with no items
and no next token: one request, no rows. -/
def fetchPages (vid : String) : List (List CommentThread) → Nat → Nat → List CommentRow × Nat
  | [], _, _ => ([], 1)
  | p :: rest, fetched, target =>
    let (rows, f) := procThreads vid p fetched target
    if target ≤ f then (rows, 1)
    else
      match rest with
      | [] => (rows, 1)
      | q :: qs =>
        let (rs, n) := fetchPages vid (q :: qs) f target
        (rows ++ rs, n + 1)

/-- `fetch_comments_for_video` of youtube_scraper.py: rows collected for
one video (best-effort up to `target`), paired with the number of page
requests issued. -/
def fetch_comments_for_video (vid : String) (pages : List (List CommentThread))
    (target : Nat) : List CommentRow × Nat :=
  fetchPages vid pages 0 target

/-- `fetch_comments` of yt_topup.py is line-identical to the scraper's
collector apart from the sleep jitter bounds, which have no effect on the
produced rows. -/
def fetch_comments (vid : String) (pages : List (List CommentThread))
    (target : Nat) : List CommentRow × Nat :=
  fetch_comments_for_video vid pages target

/-- Index (1-based) of the page on which the running row count first
reaches `target`, or the number of remaining pages when the cursor ends
first.  Used to state that the collector requests no page beyond that
one. -/
def pagesNeededAux : List (List CommentThread) → Nat → Nat → Nat
  | [], _, _ => 0
  | p :: rest, f, target =>
    if target ≤ f + pageLen p then 1 else 1 + pagesNeededAux rest (f + pageLen p) target

def pagesNeeded (pages : List (List CommentThread)) (target : Nat) : Nat :=
  pagesNeededAux pages 0 target

/-! ## Channel selector (pick_5_channels_5_videos) -/

/-- Channel id → ordered list of selected video ids. -/
abbrev Buckets := List (String × List String)

/-- Tier-0 stats dict: probe of the relevance-ordered search results. -/
def stats0 (env : YTEnv) : List (String × VMeta) :=
  video_stats env (env.search "relevance")

/-- Group qualifying videos (comment count `>= min_comments`) by owning
channel, in stats-dict iteration order (= discovery order). -/
def groupQualifying (s : List (String × VMeta)) (minC : Nat) : Buckets :=
  s.foldl
    (fun b vm => if minC ≤ vm.2.commentCount then appendB b vm.2.channelId vm.1 else b)
    []

/-- Per-bucket `vids.sort(key=lambda v: stats[v]['commentCount'],
reverse=True)` followed by `vids[:5]`.  Every bucket member is a key of
`s` here, so the `getD 0` default is never taken. -/
def capBuckets (s : List (String × VMeta)) (b : Buckets) : Buckets :=
  b.map (fun p =>
    (p.1, (sortDesc (fun v => ((lookupV s v).map VMeta.commentCount).getD 0) p.2).take 5))

def tier0Buckets (env : YTEnv) (minC : Nat) : Buckets :=
  capBuckets (stats0 env) (groupQualifying (stats0 env) minC)

/-- `[(ch, vids) for ch, vids in by_channel.items() if len(vids) == 5]`. -/
def selectedOf (b : Buckets) : Buckets := b.filter (fun p => p.2.length == 5)

/-- The escalation sort key `stats.get(v, stats2.get(v))['commentCount']`:
`none` models the `TypeError` raised when the video is in neither the
primary stats dict nor the current tier's stats dict. -/
def mergeKey (s s2 : List (String × VMeta)) (v : String) : Option Nat :=
  match lookupV s v with
  | some m => some m.commentCount
  | none => (lookupV s2 v).map (fun m => m.commentCount)

/-- Evaluate the sort key for every bucket member (Python computes every
key before sorting); `none` as soon as one key raises. -/
def resolveKeys (s s2 : List (String × VMeta)) : List String → Option (List (String × Nat))
  | [] => some []
  | v :: vs =>
    match mergeKey s s2 v, resolveKeys s s2 vs with
    | some c, some rest => some ((v, c) :: rest)
    | _, _ => none

/-- `sorted(bucket, key=..., reverse=True)[:5]` inside the escalation
loop, raising when a sort key is unavailable. -/
def resortBucket (s s2 : List (String × VMeta)) (vs : List String) :
    Except Unit (List String) :=
  match resolveKeys s s2 vs with
  | none => Except.error ()
  | some ps => Except.ok (((sortDesc Prod.snd ps).map Prod.fst).take 5)

/-- Body of the escalation loop for one `(vid, meta)` stats2 item:
qualifying videos are merged into their channel's bucket (dedup by video
id, re-sort, re-cap at 5). -/
def escalateStep (s s2 : List (String × VMeta)) (minC : Nat) (b : Buckets)
    (vm : String × VMeta) : Except Unit Buckets :=
  if minC ≤ vm.2.commentCount then
    let ch := vm.2.channelId
    let cur := (lookupV b ch).getD []
    if vm.1 ∈ cur then Except.ok b
    else
      match resortBucket s s2 (cur ++ [vm.1]) with
      | Except.error e => Except.error e
      | Except.ok out => Except.ok (setB b ch out)
  else Except.ok b

def escalateList (s s2 : List (String × VMeta)) (minC : Nat) :
    List (String × VMeta) → Buckets → Except Unit Buckets
  | [], b => Except.ok b
  | x :: xs, b =>
    match escalateStep s s2 minC b x with
    | Except.error e => Except.error e
    | Except.ok b2 => escalateList s s2 minC xs b2

/-- One escalation tier: `for vid, meta in stats2.items(): ...` merging
the tier's qualifying candidates into the accumulated buckets. -/
def escalateTier (s s2 : List (String × VMeta)) (minC : Nat) (b : Buckets) :
    Except Unit Buckets :=
  escalateList s s2 minC s2 b

/-- Final fallback: channels sorted by bucket size, descending (stable),
truncated to 5. -/
def fallbackB (b : Buckets) : Buckets :=
  (sortDesc (fun p => p.2.length) b).take 5

/-- The escalation loop over the alternate orderings, checking the
qualification condition after each tier, falling back after the last. -/
def runTiers (env : YTEnv) (s : List (String × VMeta)) (minC : Nat) :
    List String → Buckets → Except Unit Buckets
  | [], b => Except.ok (fallbackB b)
  | ordv :: rest, b =>
    let s2 := video_stats env (env.search ordv)
    match escalateTier s s2 minC b with
    | Except.error e => Except.error e
    | Except.ok b2 =>
      let sel := selectedOf b2
      if 5 ≤ sel.length then Except.ok (sel.take 5)
      else runTiers env s minC rest b2

/-- `pick_5_channels_5_videos` of youtube_scraper.py. -/
def pick_5_channels_5_videos (env : YTEnv) (minC : Nat) : Except Unit Buckets :=
  let b0 := tier0Buckets env minC
  let sel0 := selectedOf b0
  if 5 ≤ sel0.length then Except.ok (sel0.take 5)
  else runTiers env (stats0 env) minC ["viewCount", "date", "rating"] b0

/-- The selection portion of the scraper's `main`: run the selector, then
truncate to the requested number of channels and videos per channel
(`selected[:args.channels]`, `vids[:] = vids[:args.videos_per_channel]`). -/
def selectPipeline (env : YTEnv) (minC N M : Nat) : Except Unit Buckets :=
  match pick_5_channels_5_videos env minC with
  | Except.error e => Except.error e
  | Except.ok sel => Except.ok ((sel.take N).map (fun p => (p.1, p.2.take M)))

/-- The qualification property claim C1 is about: the video has a probed
engagement (comment) count of at least `minC`. -/
def qualifies (env : YTEnv) (minC : Nat) (v : String) : Prop :=
  ∃ m, env.stats v = some m ∧ minC ≤ m.commentCount

/-- Every video in every bucket satisfies `P`. -/
def AllVids (P : String → Prop) (b : Buckets) : Prop :=
  ∀ p ∈ b, ∀ v ∈ p.2, P v

/-- Every bucket holds at most 5 videos. -/
def AllLe5 (b : Buckets) : Prop := ∀ p ∈ b, p.2.length ≤ 5

/-- Definition following the spec's words for claim C5 (not the source):
buckets are capped at the supplied `M`, a channel qualifies once its
bucket reaches exactly `M` members, and at least `N` qualifying channels
is the terminal success state returning the first `N` in discovery
order. -/
def specTier0Terminal (env : YTEnv) (minC N M : Nat) : Option Buckets :=
  let s := stats0 env
  let b0 := (groupQualifying s minC).map (fun p =>
    (p.1, (sortDesc (fun v => ((lookupV s v).map VMeta.commentCount).getD 0) p.2).take M))
  let sel := b0.filter (fun p => p.2.length == M)
  if N ≤ sel.length then some (sel.take N) else none

/-! ## Deferred backfill passes (fill_video_titles / fill_video_meta) -/

/-- The deduplicated list of video ids carried by the rows
(`set(r['video_id'] for r in rows if r['video_id'])`); the `sorted(...)`
in the source only orders the probe requests and has no effect on the
resulting metadata map. -/
def rowVids (rows : List CommentRow) : List String :=
  dedupFirst (rows.filterMap (fun r => if r.video_id = "" then none else some r.video_id))

/-- Per-row effect of `fill_video_titles`: backfill `video_title` when
the row's video id is a key of the fetched metadata map, leave the row
untouched otherwise. -/
def fillTitleStep (meta : List (String × VMeta)) (r : CommentRow) : CommentRow :=
  match lookupV meta r.video_id with
  | some m => { r with video_title := some m.title }
  | none => r

/-- `fill_video_titles` of youtube_scraper.py, as the pure pass
`(rows, metadataById) → rows'` (the source mutates the row dicts in
place). -/
def fill_video_titles (f : String → Option VMeta) (rows : List CommentRow) :
    List CommentRow :=
  rows.map (fillTitleStep (videoStatsOn f (rowVids rows)))

/-- Per-row effect of `fill_video_meta` (top-up variant): backfill
`video_title` and the uploader channel id/title. -/
def fillMetaStep (meta : List (String × VMeta)) (r : CommentRow) : CommentRow :=
  match lookupV meta r.video_id with
  | some m =>
    { r with
      video_title := some m.title
    , video_uploader_channel_id := some m.channelId
    , video_uploader_channel_title := some m.channelTitle }
  | none => r

/-- `fill_video_meta` of yt_topup.py as a pure pass. -/
def fill_video_meta (f : String → Option VMeta) (rows : List CommentRow) :
    List CommentRow :=
  rows.map (fillMetaStep (videoStatsOn f (rowVids rows)))

/-- A row with its `video_title` cleared: equal projections of two rows
state that they agree on every field other than `video_title`. -/
def exceptTitle (r : CommentRow) : CommentRow := { r with video_title := none }

/-- A row with `video_title` and both uploader fields cleared. -/
def exceptMeta (r : CommentRow) : CommentRow :=
  { r with
    video_title := none
  , video_uploader_channel_id := none
  , video_uploader_channel_title := none }

/-! ## Corpus merger (yt_topup.py main) -/

def MIN_COMMENTS : Nat := 25

def TARGET_PER_VIDEO : Nat := 120

def TARGET_CHANNEL_NAMES : List String :=
  ["Rappler", "GMA News", "ABS-CBN News", "News5", "INQUIRER.net"]

/-- Environment of yt_topup.py: channel resolution (`find_channel_id`),
per-channel video search (`search_channel_videos`), ground-truth video
statistics, and the comment-thread pages of each video. -/
structure TopupEnv where
  findChannel : String → Option (String × String)
  channelVideos : String → List String
  stats : String → Option VMeta
  commentPages : String → List (List CommentThread)

/-- Python `a or b` on two optional strings (`None` and `""` are falsy). -/
def orStr : Option String → Option String → Option String
  | some a, b => if a = "" then b else some a
  | none, b => b

/-- `r.get('video_uploader_channel_id') or r.get('channel_id')`. -/
def chKey (r : CommentRow) : Option String :=
  orStr r.video_uploader_channel_id r.channel_id

/-- `per_ch.setdefault(ch, set()).add(vid)`. -/
def perChAdd (p : List (String × List String)) (ch v : String) :
    List (String × List String) :=
  match lookupV p ch with
  | some s => setB p ch (insertS s v)
  | none => p ++ [(ch, [v])]

/-- The per-uploader-channel covered-video sets computed from the
existing corpus. -/
def perChInit (existing : List CommentRow) : List (String × List String) :=
  existing.foldl
    (fun p r =>
      match chKey r with
      | some ch =>
        if ch = "" then p
        else if r.video_id = "" then p
        else perChAdd p ch r.video_id
      | none => p)
    []

/-- `set(r.get('video_id') for r in existing if r.get('video_id'))`. -/
def initialVids (existing : List CommentRow) : List String :=
  dedupFirst (existing.filterMap (fun r => if r.video_id = "" then none else some r.video_id))

/-- Mutable state threaded through the top-up channel loop.  `fetchedLog`
is instrumentation recording, in order, every video id passed to
`fetch_comments`; the source has no such variable, it exists only so the
"no video is fetched twice" claim can be stated. -/
structure TopupState where
  existing_vids : List String
  per_ch : List (String × List String)
  added : List CommentRow
  fetchedLog : List String

/-- The per-row overwrite of the uploader fields from the channel-search
stats (`m = meta[vid]`; `vid` is always a key of `meta` when this runs,
because the engagement filter that produced `pick` required a probed
comment count, so the `none` branch mirrors an unreachable `KeyError`). -/
def uplStep (meta : List (String × VMeta)) (vid : String) (r : CommentRow) : CommentRow :=
  match lookupV meta vid with
  | some m =>
    { r with
      video_uploader_channel_id := some m.channelId
    , video_uploader_channel_title := some m.channelTitle }
  | none => r

/-- The rows produced for one picked video: fetch its comments, run the
deferred backfill, then overwrite the uploader fields from the
channel-search stats. -/
def collectedRows (env : TopupEnv) (meta : List (String × VMeta)) (vid : String) :
    List CommentRow :=
  (fill_video_meta env.stats
    (fetch_comments vid (env.commentPages vid) TARGET_PER_VIDEO).1).map (uplStep meta vid)

/-- Collect one picked video and update the run's mutable state. -/
def collectVideo (env : TopupEnv) (chId : String) (meta : List (String × VMeta))
    (st : TopupState) (vid : String) : TopupState :=
  { existing_vids := insertS st.existing_vids vid
  , per_ch := perChAdd st.per_ch chId vid
  , added := st.added ++ collectedRows env meta vid
  , fetchedLog := st.fetchedLog ++ [vid] }

/-- The body of one channel iteration once the channel id is resolved:
compute the coverage deficit (`need = max(0, 5 - have)` is `Nat`
subtraction), search the channel's catalog, filter to candidates meeting
the engagement threshold and not already covered, rank by engagement
descending, take the shortfall, and collect each picked video. -/
def topupChannel (env : TopupEnv) (st : TopupState) (chId : String) : TopupState :=
  let hv := ((lookupV st.per_ch chId).getD []).length
  if 5 - hv = 0 then st
  else
    let vids := env.channelVideos chId
    let meta := videoStatsOn env.stats vids
    let cand := vids.filter (fun v =>
      decide (MIN_COMMENTS ≤ ((lookupV meta v).map VMeta.commentCount).getD 0)
        && decide (¬ v ∈ st.existing_vids))
    let ranked := sortDesc (fun v => ((lookupV meta v).map VMeta.commentCount).getD 0) cand
    let pick := ranked.take (5 - hv)
    pick.foldl (collectVideo env chId meta) st

/-- One iteration of `for name in TARGET_CHANNEL_NAMES`: resolve the
channel by name (skipping unresolvable names), then run the channel
body. -/
def topupPass (env : TopupEnv) (st : TopupState) (name : String) : TopupState :=
  match env.findChannel name with
  | none => st
  | some (chId, _chTitle) => topupChannel env st chId

/-- The state after the whole channel loop of yt_topup.py `main`. -/
def topup_run (env : TopupEnv) (names : List String) (existing : List CommentRow) :
    TopupState :=
  names.foldl (topupPass env) ⟨initialVids existing, perChInit existing, [], []⟩

/-- yt_topup.py `main`: the merged corpus (`existing + added`) and the
rows appended by this run. -/
def topup_main (env : TopupEnv) (names : List String) (existing : List CommentRow) :
    List CommentRow × List CommentRow :=
  let st := topup_run env names existing
  (existing ++ st.added, st.added)

/-- No video id is associated with two different owning (uploader)
channels in a corpus. -/
def uplConsistent (rows : List CommentRow) : Prop :=
  ∀ r1 ∈ rows, ∀ r2 ∈ rows, r1.video_id = r2.video_id →
    r1.video_uploader_channel_id = r2.video_uploader_channel_id

/-- Run invariant of the top-up channel loop: the fetch log is
duplicate-free, covered by the current video-id set, and disjoint from
the prior corpus's video ids; the prior video ids stay covered; and every
appended row carries a logged, non-empty video id whose uploader fields
come from the probed stats of that video. -/
def TopupInv (env : TopupEnv) (existing : List CommentRow) (st : TopupState) : Prop :=
  st.fetchedLog.Nodup ∧
  (∀ v ∈ initialVids existing, v ∈ st.existing_vids) ∧
  (∀ v ∈ st.fetchedLog, v ∈ st.existing_vids) ∧
  (∀ v ∈ st.fetchedLog, ¬ v ∈ initialVids existing) ∧
  (∀ r ∈ st.added, r.video_id ∈ st.fetchedLog ∧ ¬ r.video_id = "" ∧
    ∃ m, env.stats r.video_id = some m ∧ r.video_uploader_channel_id = some m.channelId)

/-! ## Rappler article scraper (rappler_scraper.py) -/

/-- The dict `extract_article` returns: every field except the link is
best-effort and may be absent. -/
structure ArticleData where
  link : String
  title : Option String
  date_published : Option String
  text : Option String
  author : Option String
  tags : Option String
deriving DecidableEq

/-- Environment of rappler_scraper.py: `get_article_links_from_listing`
keyed by the page number (the listing-URL construction from
mode/slug/query is absorbed here), and `extract_article` per link
(`none` models a failed fetch, which returns `None`). -/
structure RapplerEnv where
  listing : Nat → List String
  article : String → Option ArticleData

/-- Python truthiness of an optional string (`None` and `""` are falsy). -/
def optTruthy : Option String → Bool
  | some s => !(s == "")
  | none => false

/-- `scrape_rappler`: crawl listing pages `1..pages`, extract each linked
article, and keep a row only when the extraction succeeded and both the
title and the body text are truthy
(`if data and data.get("title") and data.get("text")`). -/
def scrape_rappler (env : RapplerEnv) (pages : Nat) : List ArticleData :=
  (List.range' 1 pages).foldl
    (fun rows page =>
      (env.listing page).foldl
        (fun rows link =>
          match env.article link with
          | some d => if optTruthy d.title && optTruthy d.text then rows ++ [d] else rows
          | none => rows)
        rows)
    []

/-! ## Concrete witness inputs -/

/-- A comment with a given id (the other fields are irrelevant payload). -/
def cW (i : String) : YComment := ⟨i, "d", "o", "2024", 0, none, "a"⟩

def tW1 : CommentThread := ⟨cW "c1", [cW "r1", cW "r2"]⟩

def tW2 : CommentThread := ⟨cW "c2", []⟩

/-- Two pages holding 3 + 1 rows. -/
def pagesW : List (List CommentThread) := [[tW1], [tW2]]

/-- Selector environment: one channel with two qualifying videos on the
primary search and empty escalation searches (ends in the fallback). -/
def env1 : YTEnv :=
  { search := fun o => if o = "relevance" then ["v1", "v2"] else []
  , stats := fun v =>
      if v = "v1" then some ⟨30, "chA", "A", "tv1", "2024"⟩
      else if v = "v2" then some ⟨28, "chA", "A", "tv2", "2024"⟩
      else none }

/-- Selector environment: the primary search fills channel chC's bucket
with five qualifying videos (counts 30..26) and the first escalation tier
finds a sixth, higher-engagement video c6 of the same channel. -/
def env4 : YTEnv :=
  { search := fun o =>
      if o = "relevance" then ["c1", "c2", "c3", "c4", "c5"]
      else if o = "viewCount" then ["c6"]
      else []
  , stats := fun v =>
      if v = "c1" then some ⟨30, "chC", "C", "t1", "2024"⟩
      else if v = "c2" then some ⟨29, "chC", "C", "t2", "2024"⟩
      else if v = "c3" then some ⟨28, "chC", "C", "t3", "2024"⟩
      else if v = "c4" then some ⟨27, "chC", "C", "t4", "2024"⟩
      else if v = "c5" then some ⟨26, "chC", "C", "t5", "2024"⟩
      else if v = "c6" then some ⟨100, "chC", "C", "t6", "2024"⟩
      else none }

/-- Selector environment: the primary search yields one qualifying video
of channel chA; the first escalation tier yields five qualifying videos
of channel chB. -/
def env5 : YTEnv :=
  { search := fun o =>
      if o = "relevance" then ["a1"]
      else if o = "viewCount" then ["b1", "b2", "b3", "b4", "b5"]
      else []
  , stats := fun v =>
      if v = "a1" then some ⟨30, "chA", "A", "ta", "2024"⟩
      else if v = "b1" then some ⟨45, "chB", "B", "t1", "2024"⟩
      else if v = "b2" then some ⟨44, "chB", "B", "t2", "2024"⟩
      else if v = "b3" then some ⟨43, "chB", "B", "t3", "2024"⟩
      else if v = "b4" then some ⟨42, "chB", "B", "t4", "2024"⟩
      else if v = "b5" then some ⟨41, "chB", "B", "t5", "2024"⟩
      else none }

/-- Selector environment reaching the latent escalation crash: video x1
enters chD's bucket during the viewCount tier; during the date tier a new
video y1 of the same channel triggers a re-sort whose key for x1 is found
neither in the primary stats dict nor in the date tier's stats dict. -/
def env8 : YTEnv :=
  { search := fun o =>
      if o = "relevance" then ["d1"]
      else if o = "viewCount" then ["x1"]
      else if o = "date" then ["y1"]
      else []
  , stats := fun v =>
      if v = "d1" then some ⟨30, "chD", "D", "t1", "2024"⟩
      else if v = "x1" then some ⟨40, "chD", "D", "t2", "2024"⟩
      else if v = "y1" then some ⟨50, "chD", "D", "t3", "2024"⟩
      else none }

/-- Rappler environment: one listing page carrying one complete article
and one article whose body text is missing. -/
def envR : RapplerEnv :=
  { listing := fun p => if p = 1 then ["u1", "u2"] else []
  , article := fun u =>
      if u = "u1" then some ⟨"u1", some "T1", some "2024", some "B1", none, none⟩
      else if u = "u2" then some ⟨"u2", some "T2", none, none, none, none⟩
      else none }

/-- Top-up environment: one resolvable target channel with two qualifying
videos and an empty prior corpus. -/
def env3 : TopupEnv :=
  { findChannel := fun n => if n = "NewsX" then some ("chX", "NewsX") else none
  , channelVideos := fun ch => if ch = "chX" then ["x1", "x2"] else []
  , stats := fun v =>
      if v = "x1" then some ⟨40, "chX", "NewsX", "TX1", "2024"⟩
      else if v = "x2" then some ⟨30, "chX", "NewsX", "TX2", "2024"⟩
      else none
  , commentPages := fun v => if v = "x1" then [[tW1]] else [[tW2]] }

/-- A prior-corpus row covering video r1 of channel chR. -/
def row7 : CommentRow :=
  { title := "hello"
  , link := "l"
  , date_published := "2024"
  , text := "hello"
  , like_count := 1
  , reply_parent_id := none
  , channel_id := some "u1"
  , channel_title := "U"
  , video_id := "r1"
  , video_title := some "T"
  , comment_id := "c"
  , author := "U"
  , is_reply := false
  , video_uploader_channel_id := some "chR"
  , video_uploader_channel_title := some "Rappler" }

/-- Top-up environment in which no new qualifying candidate exists: r1 is
already covered by `row7` and r9 falls below the engagement threshold. -/
def env7 : TopupEnv :=
  { findChannel := fun n => if n = "Rappler" then some ("chR", "Rappler") else none
  , channelVideos := fun ch => if ch = "chR" then ["r1", "r9"] else []
  , stats := fun v =>
      if v = "r1" then some ⟨40, "chR", "Rappler", "T", "2024"⟩
      else if v = "r9" then some ⟨10, "chR", "Rappler", "T9", "2024"⟩
      else none
  , commentPages := fun _ => [] }

/-! ## Helper lemmas: association lists, dedup, stable sort -/

theorem lookupV_mem {α : Type} {l : List (String × α)} {k : String} {v : α}
    (h : lookupV l k = some v) : (k, v) ∈ l := by
  induction l with
  | nil => simp [lookupV] at h
  | cons p rest ih =>
    obtain ⟨k1, v1⟩ := p
    simp only [lookupV] at h
    by_cases hk : k1 = k
    · simp [hk] at h
      subst hk h
      exact List.mem_cons_self _ _
    · simp [hk] at h
      exact List.mem_cons_of_mem _ (ih h)

theorem lookupV_setB_self {α : Type} (l : List (String × α)) (k : String) (v : α) :
    lookupV (setB l k v) k = some v := by
  induction l with
  | nil => simp [setB, lookupV]
  | cons p rest ih =>
    obtain ⟨k1, v1⟩ := p
    by_cases hk : k1 = k <;> simp [setB, lookupV, hk, ih]

theorem lookupV_setB_ne {α : Type} (l : List (String × α)) (k k2 : String) (v : α)
    (h : k2 ≠ k) : lookupV (setB l k v) k2 = lookupV l k2 := by
  induction l with
  | nil => simp [setB, lookupV, Ne.symm h]
  | cons p rest ih =>
    obtain ⟨k1, v1⟩ := p
    by_cases hk : k1 = k
    · subst hk
      simp [setB, lookupV, Ne.symm h]
    · simp [setB, lookupV, hk, ih]

theorem mem_setB {α : Type} {l : List (String × α)} {k : String} {v : α} :
    ∀ p ∈ setB l k v, p = (k, v) ∨ p ∈ l := by
  induction l with
  | nil => simp [setB]
  | cons q rest ih =>
    obtain ⟨k1, v1⟩ := q
    intro p hp
    by_cases hk : k1 = k
    · simp only [setB, if_pos hk] at hp
      rcases List.mem_cons.mp hp with h | h
      · exact Or.inl h
      · exact Or.inr (List.mem_cons_of_mem _ h)
    · simp only [setB, if_neg hk] at hp
      rcases List.mem_cons.mp hp with h | h
      · exact Or.inr (h ▸ List.mem_cons_self _ _)
      · rcases ih p h with h2 | h2
        · exact Or.inl h2
        · exact Or.inr (List.mem_cons_of_mem _ h2)

theorem mem_appendB_vals {l : List (String × List String)} {k v : String} :
    ∀ p ∈ appendB l k v, ∀ u ∈ p.2, (∃ q, q ∈ l ∧ u ∈ q.2) ∨ u = v := by
  induction l with
  | nil =>
    intro p hp u hu
    simp [appendB] at hp
    subst hp
    simp at hu
    exact Or.inr hu
  | cons q rest ih =>
    obtain ⟨k1, v1⟩ := q
    intro p hp u hu
    by_cases hk : k1 = k
    · simp only [appendB, if_pos hk] at hp
      rcases List.mem_cons.mp hp with h | h
      · subst h
        simp only [List.mem_append, List.mem_singleton] at hu
        rcases hu with h2 | h2
        · exact Or.inl ⟨(k1, v1), List.mem_cons_self _ _, h2⟩
        · exact Or.inr h2
      · exact Or.inl ⟨p, List.mem_cons_of_mem _ h, hu⟩
    · simp only [appendB, if_neg hk] at hp
      rcases List.mem_cons.mp hp with h | h
      · subst h
        exact Or.inl ⟨(k1, v1), List.mem_cons_self _ _, hu⟩
      · rcases ih p h u hu with h2 | h2
        · obtain ⟨q2, hq2, hu2⟩ := h2
          exact Or.inl ⟨q2, List.mem_cons_of_mem _ hq2, hu2⟩
        · exact Or.inr h2

theorem mem_dedupFirstAux {a : String} :
    ∀ (l seen : List String), a ∈ dedupFirstAux seen l ↔ a ∈ l ∧ ¬ a ∈ seen := by
  intro l
  induction l with
  | nil => intro seen; simp [dedupFirstAux]
  | cons x xs ih =>
    intro seen
    by_cases hx : x ∈ seen
    · simp only [dedupFirstAux, if_pos hx, ih]
      constructor
      · rintro ⟨h1, h2⟩; exact ⟨List.mem_cons_of_mem _ h1, h2⟩
      · rintro ⟨h1, h2⟩
        rcases List.mem_cons.mp h1 with h | h
        · exact absurd (h ▸ hx) h2
        · exact ⟨h, h2⟩
    · simp only [dedupFirstAux, if_neg hx, List.mem_cons, ih]
      constructor
      · rintro (h | ⟨h1, h2⟩)
        · subst h; exact ⟨Or.inl rfl, hx⟩
        · exact ⟨Or.inr h1, fun hs => h2 (by simp [List.mem_cons, hs])⟩
      · rintro ⟨h1 | h1, h2⟩
        · exact Or.inl h1
        · by_cases hax : a = x
          · exact Or.inl hax
          · exact Or.inr ⟨h1, by simp [List.mem_cons, hax, h2]⟩

theorem nodup_dedupFirstAux : ∀ (l seen : List String), (dedupFirstAux seen l).Nodup := by
  intro l
  induction l with
  | nil => intro seen; simp [dedupFirstAux]
  | cons x xs ih =>
    intro seen
    by_cases hx : x ∈ seen
    · simpa [dedupFirstAux, if_pos hx] using ih seen
    · simp only [dedupFirstAux, if_neg hx]
      refine List.nodup_cons.mpr ⟨?_, ih _⟩
      intro hmem
      exact ((mem_dedupFirstAux xs (x :: seen)).mp hmem).2 (List.mem_cons_self _ _)

theorem mem_dedupFirst {a : String} {l : List String} : a ∈ dedupFirst l ↔ a ∈ l := by
  simp [dedupFirst, mem_dedupFirstAux]

theorem nodup_dedupFirst (l : List String) : (dedupFirst l).Nodup :=
  nodup_dedupFirstAux l []

theorem insDesc_perm {α : Type} (key : α → Nat) (x : α) (l : List α) :
    List.Perm (insDesc key x l) (x :: l) := by
  induction l with
  | nil => simp [insDesc]
  | cons y ys ih =>
    simp only [insDesc]
    split
    · exact List.Perm.refl _
    · exact (ih.cons y).trans (List.Perm.swap x y ys)

theorem sortDesc_perm {α : Type} (key : α → Nat) (l : List α) :
    List.Perm (sortDesc key l) l := by
  induction l with
  | nil => simp [sortDesc]
  | cons x xs ih =>
    have : sortDesc key (x :: xs) = insDesc key x (sortDesc key xs) := rfl
    rw [this]
    exact (insDesc_perm key x _).trans (ih.cons x)

theorem mem_sortDesc {α : Type} {key : α → Nat} {a : α} {l : List α} :
    a ∈ sortDesc key l ↔ a ∈ l :=
  (sortDesc_perm key l).mem_iff

theorem length_sortDesc {α : Type} (key : α → Nat) (l : List α) :
    (sortDesc key l).length = l.length :=
  (sortDesc_perm key l).length_eq

theorem nodup_sortDesc {α : Type} {key : α → Nat} {l : List α} (h : l.Nodup) :
    (sortDesc key l).Nodup :=
  (sortDesc_perm key l).nodup_iff.mpr h

theorem insertS_mem {l : List String} {v a : String} :
    a ∈ insertS l v ↔ a = v ∨ a ∈ l := by
  by_cases h : v ∈ l
  · simp only [insertS, if_pos h]
    constructor
    · exact Or.inr
    · rintro (rfl | h2)
      · exact h
      · exact h2
  · simp [insertS, if_neg h, List.mem_cons]

/-! ## Helper lemmas: probe dicts -/

theorem mem_videoStatsOn {f : String → Option VMeta} {ids : List String} {v : String}
    {m : VMeta} (h : (v, m) ∈ videoStatsOn f ids) : f v = some m ∧ v ∈ ids := by
  simp only [videoStatsOn, List.mem_filterMap] at h
  obtain ⟨a, ha, hm⟩ := h
  rw [Option.map_eq_some'] at hm
  obtain ⟨m0, hf, he⟩ := hm
  cases he
  exact ⟨hf, mem_dedupFirst.mp ha⟩

theorem lookupV_statsList (f : String → Option VMeta) :
    ∀ (l : List String), l.Nodup → ∀ k,
    lookupV (l.filterMap (fun v => (f v).map (fun m => (v, m)))) k
      = if k ∈ l then f k else none := by
  intro l
  induction l with
  | nil => intro _ k; simp [lookupV]
  | cons v vs ih =>
    intro hn k
    have hvn : ¬ v ∈ vs := (List.nodup_cons.mp hn).1
    have ih2 := ih (List.nodup_cons.mp hn).2 k
    cases hf : f v with
    | none =>
      simp only [List.filterMap_cons, hf, Option.map_none']
      rw [ih2]
      by_cases hk : k = v
      · subst hk
        simp [hvn, hf]
      · simp [List.mem_cons, hk]
    | some m =>
      simp only [List.filterMap_cons, hf, Option.map_some']
      by_cases hk : v = k
      · subst hk
        simp [lookupV, hf]
      · have hne : ¬ k = v := fun hh => hk hh.symm
        simp only [lookupV, if_neg hk]
        rw [ih2]
        by_cases hkv : k ∈ vs <;> simp [List.mem_cons, hne, hkv]

theorem lookupV_videoStatsOn (f : String → Option VMeta) (ids : List String) (k : String) :
    lookupV (videoStatsOn f ids) k = if k ∈ ids then f k else none := by
  rw [videoStatsOn, lookupV_statsList f _ (nodup_dedupFirst ids) k]
  by_cases h : k ∈ ids <;> simp [mem_dedupFirst, h]

/-! ## Collector lemmas -/

theorem threadRows_length (vid : String) (t : CommentThread) :
    (threadRows vid t).length = threadLen t := by
  simp [threadRows, threadLen]
  omega

theorem pageLen_cons (t : CommentThread) (rest : List CommentThread) :
    pageLen (t :: rest) = threadLen t + pageLen rest := by
  simp [pageLen]

theorem flatRows_append (vid : String) (a b : List CommentThread) :
    flatRows vid (a ++ b) = flatRows vid a ++ flatRows vid b := by
  induction a with
  | nil => simp [flatRows]
  | cons t ts ih => simp [flatRows, ih]

theorem flatRows_length (vid : String) (ts : List CommentThread) :
    (flatRows vid ts).length = (ts.map threadLen).sum := by
  induction ts with
  | nil => simp [flatRows]
  | cons t rest ih => simp [flatRows, ih, threadRows_length]

theorem mem_flatRows {vid : String} {r : CommentRow} :
    ∀ {ts : List CommentThread}, r ∈ flatRows vid ts → ∃ t ∈ ts, r ∈ threadRows vid t := by
  intro ts
  induction ts with
  | nil => intro h; simp [flatRows] at h
  | cons t rest ih =>
    intro h
    rcases List.mem_append.mp h with h2 | h2
    · exact ⟨t, List.mem_cons_self _ _, h2⟩
    · obtain ⟨t2, ht2, hr⟩ := ih h2
      exact ⟨t2, List.mem_cons_of_mem _ ht2, hr⟩

theorem totalAvail_nil : totalAvail [] = 0 := rfl

theorem totalAvail_cons (p : List CommentThread) (ps : List (List CommentThread)) :
    totalAvail (p :: ps) = pageLen p + totalAvail ps := by
  simp [totalAvail, threadsOf, pageLen]

theorem procThreads_cons (vid : String) (t : CommentThread) (rest : List CommentThread)
    (fetched target : Nat) :
    procThreads vid (t :: rest) fetched target =
      if target ≤ fetched + (threadRows vid t).length
      then (threadRows vid t, fetched + (threadRows vid t).length)
      else (threadRows vid t
              ++ (procThreads vid rest (fetched + (threadRows vid t).length) target).1,
            (procThreads vid rest (fetched + (threadRows vid t).length) target).2) := rfl

theorem procThreads_snd (vid : String) (ts : List CommentThread) :
    ∀ f T, (procThreads vid ts f T).2 = f + (procThreads vid ts f T).1.length := by
  induction ts with
  | nil => intro f T; simp [procThreads]
  | cons t rest ih =>
    intro f T
    rw [procThreads_cons]
    by_cases h : T ≤ f + (threadRows vid t).length
    · simp [h]
    · simp only [if_neg h, List.length_append]
      rw [ih]
      omega

theorem procThreads_le (vid : String) (ts : List CommentThread) :
    ∀ f T, (procThreads vid ts f T).2 ≤ f + pageLen ts := by
  induction ts with
  | nil => intro f T; simp [procThreads, pageLen]
  | cons t rest ih =>
    intro f T
    rw [procThreads_cons]
    have hl := threadRows_length vid t
    have hp := pageLen_cons t rest
    by_cases h : T ≤ f + (threadRows vid t).length
    · simp only [if_pos h]
      omega
    · simp only [if_neg h]
      have := ih (f + (threadRows vid t).length) T
      omega

theorem procThreads_reached (vid : String) (ts : List CommentThread) :
    ∀ f T, T ≤ f + pageLen ts → T ≤ (procThreads vid ts f T).2 := by
  induction ts with
  | nil => intro f T h; simpa [procThreads, pageLen] using h
  | cons t rest ih =>
    intro f T h
    rw [procThreads_cons]
    have hl := threadRows_length vid t
    have hp := pageLen_cons t rest
    by_cases hc : T ≤ f + (threadRows vid t).length
    · simp only [if_pos hc]
      exact hc
    · simp only [if_neg hc]
      exact ih (f + (threadRows vid t).length) T (by omega)

theorem procThreads_all (vid : String) (ts : List CommentThread) :
    ∀ f T, ¬ (T ≤ f + pageLen ts) →
    procThreads vid ts f T = (flatRows vid ts, f + pageLen ts) := by
  induction ts with
  | nil => intro f T _; simp [procThreads, flatRows, pageLen]
  | cons t rest ih =>
    intro f T h
    have hl := threadRows_length vid t
    have hp := pageLen_cons t rest
    have h1 : ¬ (T ≤ f + (threadRows vid t).length) := by omega
    rw [procThreads_cons, if_neg h1, ih (f + (threadRows vid t).length) T (by omega)]
    simp only [flatRows, Prod.mk.injEq]
    exact ⟨trivial, by omega⟩

theorem procThreads_take (vid : String) (ts : List CommentThread) :
    ∀ f T, ∃ k, (procThreads vid ts f T).1 = flatRows vid (ts.take k) := by
  induction ts with
  | nil => intro f T; exact ⟨0, by simp [procThreads, flatRows]⟩
  | cons t rest ih =>
    intro f T
    rw [procThreads_cons]
    by_cases h : T ≤ f + (threadRows vid t).length
    · exact ⟨1, by simp [h, flatRows]⟩
    · obtain ⟨k, hk⟩ := ih (f + (threadRows vid t).length) T
      exact ⟨k + 1, by simp [h, flatRows, hk]⟩

theorem fetchPages_nil (vid : String) (f T : Nat) : fetchPages vid [] f T = ([], 1) := rfl

theorem fetchPages_cons_nil (vid : String) (p : List CommentThread) (f T : Nat) :
    fetchPages vid [p] f T = ((procThreads vid p f T).1, 1) := by
  show (if T ≤ (procThreads vid p f T).2 then ((procThreads vid p f T).1, 1)
        else ((procThreads vid p f T).1, 1)) = ((procThreads vid p f T).1, 1)
  rw [ite_self]

theorem fetchPages_cons_cons (vid : String) (p q : List CommentThread)
    (qs : List (List CommentThread)) (f T : Nat) :
    fetchPages vid (p :: q :: qs) f T =
      if T ≤ (procThreads vid p f T).2
      then ((procThreads vid p f T).1, 1)
      else ((procThreads vid p f T).1
              ++ (fetchPages vid (q :: qs) (procThreads vid p f T).2 T).1,
            (fetchPages vid (q :: qs) (procThreads vid p f T).2 T).2 + 1) := rfl

theorem pagesNeededAux_cons (p : List CommentThread) (rest : List (List CommentThread))
    (f T : Nat) :
    pagesNeededAux (p :: rest) f T =
      if T ≤ f + pageLen p then 1 else 1 + pagesNeededAux rest (f + pageLen p) T := rfl

theorem pagesNeededAux_le (T : Nat) :
    ∀ (ps : List (List CommentThread)) (f : Nat), pagesNeededAux ps f T ≤ ps.length := by
  intro ps
  induction ps with
  | nil => intro f; simp [pagesNeededAux]
  | cons p rest ih =>
    intro f
    simp only [pagesNeededAux, List.length_cons]
    split
    · omega
    · have := ih (f + pageLen p)
      omega

theorem pagesNeededAux_pos (T : Nat) (p : List CommentThread)
    (ps : List (List CommentThread)) (f : Nat) : 1 ≤ pagesNeededAux (p :: ps) f T := by
  simp only [pagesNeededAux]
  split <;> omega

theorem fetchPages_all (vid : String) :
    ∀ (ps : List (List CommentThread)) (f T : Nat), ¬ (T ≤ f + totalAvail ps) →
    fetchPages vid ps f T = (flatRows vid (threadsOf ps), max 1 ps.length) := by
  intro ps
  induction ps with
  | nil => intro f T _; simp [fetchPages_nil, threadsOf, flatRows]
  | cons p rest ih =>
    intro f T h
    rw [totalAvail_cons] at h
    have h1 : ¬ (T ≤ f + pageLen p) := by
      have : 0 ≤ totalAvail rest := Nat.zero_le _
      omega
    have hall := procThreads_all vid p f T h1
    cases rest with
    | nil =>
      rw [fetchPages_cons_nil, hall]
      simp [threadsOf, flatRows_append, flatRows]
    | cons q qs =>
      have hle : (procThreads vid p f T).2 ≤ f + pageLen p := procThreads_le vid p f T
      have hc : ¬ (T ≤ (procThreads vid p f T).2) := by omega
      rw [fetchPages_cons_cons, if_neg hc, hall]
      have hrec := ih (f + pageLen p) T (by rw [totalAvail_cons] at h ⊢; omega)
      simp only [hall] at hrec ⊢
      rw [hrec]
      simp only [threadsOf, flatRows_append, Prod.mk.injEq]
      refine ⟨trivial, ?_⟩
      simp only [List.length_cons]
      omega

theorem fetchPages_reached (vid : String) :
    ∀ (ps : List (List CommentThread)) (f T : Nat), T ≤ f + totalAvail ps →
    T ≤ f + (fetchPages vid ps f T).1.length := by
  intro ps
  induction ps with
  | nil => intro f T h; simpa [fetchPages_nil, totalAvail_nil] using h
  | cons p rest ih =>
    intro f T h
    rw [totalAvail_cons] at h
    cases rest with
    | nil =>
      rw [fetchPages_cons_nil]
      show T ≤ f + (procThreads vid p f T).1.length
      have h0 : totalAvail ([] : List (List CommentThread)) = 0 := rfl
      have := procThreads_reached vid p f T (by omega)
      have hsnd := procThreads_snd vid p f T
      omega
    | cons q qs =>
      rw [fetchPages_cons_cons]
      by_cases hc : T ≤ (procThreads vid p f T).2
      · have hsnd := procThreads_snd vid p f T
        simp only [if_pos hc]
        omega
      · simp only [if_neg hc]
        have h1 : ¬ (T ≤ f + pageLen p) := fun hh => hc (procThreads_reached vid p f T hh)
        have hall := procThreads_all vid p f T h1
        have hrec := ih (f + pageLen p) T (by omega)
        rw [hall]
        simp only [List.length_append]
        have hfl : (flatRows vid p).length = pageLen p := flatRows_length vid p
        omega

theorem fetchPages_requests (vid : String) :
    ∀ (ps : List (List CommentThread)) (f T : Nat),
    (fetchPages vid ps f T).2 = max 1 (pagesNeededAux ps f T) := by
  intro ps
  induction ps with
  | nil => intro f T; simp [fetchPages_nil, pagesNeededAux]
  | cons p rest ih =>
    intro f T
    by_cases hc : T ≤ f + pageLen p
    · have hr : T ≤ (procThreads vid p f T).2 := procThreads_reached vid p f T hc
      cases rest with
      | nil =>
        rw [fetchPages_cons_nil]
        simp [pagesNeededAux, hc]
      | cons q qs =>
        rw [fetchPages_cons_cons, if_pos hr]
        simp [pagesNeededAux, hc]
    · have hle := procThreads_le vid p f T
      have hr : ¬ (T ≤ (procThreads vid p f T).2) := by omega
      have hall := procThreads_all vid p f T hc
      cases rest with
      | nil =>
        rw [fetchPages_cons_nil]
        simp [pagesNeededAux, hc]
      | cons q qs =>
        have hsnd : (procThreads vid p f T).2 = f + pageLen p := by rw [hall]
        rw [fetchPages_cons_cons, if_neg hr, hsnd]
        have hneed : pagesNeededAux (p :: q :: qs) f T
            = 1 + pagesNeededAux (q :: qs) (f + pageLen p) T := by
          rw [pagesNeededAux_cons, if_neg hc]
        rw [hneed]
        show (fetchPages vid (q :: qs) (f + pageLen p) T).2 + 1
            = max 1 (1 + pagesNeededAux (q :: qs) (f + pageLen p) T)
        rw [ih (f + pageLen p) T]
        have hpos := pagesNeededAux_pos T q qs (f + pageLen p)
        omega

theorem fetchPages_take (vid : String) :
    ∀ (ps : List (List CommentThread)) (f T : Nat),
    ∃ k, (fetchPages vid ps f T).1 = flatRows vid ((threadsOf ps).take k) := by
  intro ps
  induction ps with
  | nil => intro f T; exact ⟨0, by simp [fetchPages_nil, threadsOf, flatRows]⟩
  | cons p rest ih =>
    intro f T
    have hself : ∀ (res : List CommentRow), res = (procThreads vid p f T).1 →
        ∃ k, res = flatRows vid ((threadsOf (p :: rest)).take k) := by
      intro res hres
      obtain ⟨k, hk⟩ := procThreads_take vid p f T
      rcases Nat.le_total k p.length with hkle | hkge
      · refine ⟨k, ?_⟩
        rw [hres, hk]
        simp only [threadsOf]
        rw [List.take_append_eq_append_take, Nat.sub_eq_zero_of_le hkle]
        simp
      · refine ⟨p.length, ?_⟩
        rw [hres, hk, List.take_of_length_le hkge]
        simp only [threadsOf]
        rw [List.take_append_eq_append_take, Nat.sub_self]
        simp
    cases rest with
    | nil =>
      rw [fetchPages_cons_nil]
      exact hself _ rfl
    | cons q qs =>
      rw [fetchPages_cons_cons]
      by_cases hc : T ≤ (procThreads vid p f T).2
      · simp only [if_pos hc]
        exact hself _ rfl
      · simp only [if_neg hc]
        obtain ⟨k2, hk2⟩ := ih (procThreads vid p f T).2 T
        have h1 : ¬ (T ≤ f + pageLen p) := fun hh => hc (procThreads_reached vid p f T hh)
        have hall := procThreads_all vid p f T h1
        have hfst : (procThreads vid p f T).1 = flatRows vid p := by rw [hall]
        refine ⟨p.length + k2, ?_⟩
        rw [hk2, hfst]
        simp only [threadsOf]
        rw [List.take_append, flatRows_append]

theorem mem_threadRows_video_id {vid : String} {t : CommentThread} :
    ∀ r ∈ threadRows vid t, r.video_id = vid := by
  intro r hr
  rcases List.mem_cons.mp hr with h | h
  · subst h; rfl
  · obtain ⟨c, _, rfl⟩ := List.mem_map.mp h
    rfl

theorem fetch_comments_video_id (vid : String) (pages : List (List CommentThread)) (T : Nat) :
    ∀ r ∈ (fetch_comments vid pages T).1, r.video_id = vid := by
  intro r hr
  obtain ⟨k, hk⟩ := fetchPages_take vid pages 0 T
  rw [show (fetch_comments vid pages T).1 = (fetchPages vid pages 0 T).1 from rfl, hk] at hr
  obtain ⟨t, _, hrt⟩ := mem_flatRows hr
  exact mem_threadRows_video_id r hrt

/-- C2: the comment collector returns at least `T` rows whenever the
source holds at least `T` top-level-comments-plus-replies across all
pages; when the source holds fewer than `T` it returns exactly the
source's full available count and requests every page, terminating
because the cursor is exhausted; it requests no page beyond the one on
which `T` is reached or the cursor ends; and an empty source yields an
empty sequence (one request, no rows) rather than a failure.  The top-up
collector `fetch_comments` is the identical function. -/
theorem C2_collector_target_and_termination (vid : String)
    (pages : List (List CommentThread)) (T : Nat) :
    (T ≤ totalAvail pages → T ≤ (fetch_comments_for_video vid pages T).1.length) ∧
    (totalAvail pages < T →
      (fetch_comments_for_video vid pages T).1.length = totalAvail pages ∧
      (fetch_comments_for_video vid pages T).2 = max 1 pages.length) ∧
    (fetch_comments_for_video vid pages T).2 = max 1 (pagesNeeded pages T) ∧
    pagesNeeded pages T ≤ pages.length ∧
    fetch_comments_for_video vid [] T = ([], 1) ∧
    fetch_comments_for_video vid [[]] T = ([], 1) ∧
    fetch_comments vid pages T = fetch_comments_for_video vid pages T := by
  refine ⟨?_, ?_, ?_, ?_, rfl, ?_, rfl⟩
  · intro h
    have := fetchPages_reached vid pages 0 T (by omega)
    simpa using this
  · intro h
    have hall := fetchPages_all vid pages 0 T (by omega)
    constructor
    · show (fetchPages vid pages 0 T).1.length = totalAvail pages
      rw [hall]
      show (flatRows vid (threadsOf pages)).length = totalAvail pages
      rw [flatRows_length]
      rfl
    · show (fetchPages vid pages 0 T).2 = max 1 pages.length
      rw [hall]
  · exact fetchPages_requests vid pages 0 T
  · exact pagesNeededAux_le T pages 0
  · show fetchPages vid [[]] 0 T = ([], 1)
    rw [fetchPages_cons_nil]
    rfl

/-- C6: the collector's output is a prefix (at thread granularity, in
source order) of the flattened thread list, where each thread contributes
its top-level row followed by one row per reply in source order; every
top-level row has a null `reply_parent_id` and `is_reply = false`; every
reply row carries `is_reply = true` and a `reply_parent_id` equal to the
`comment_id` of the top-level row of its thread.  The top-up collector
`fetch_comments` is the identical function. -/
theorem C6_reply_rows_structure (vid : String) (pages : List (List CommentThread)) (T : Nat) :
    (∃ k, (fetch_comments_for_video vid pages T).1
        = flatRows vid ((threadsOf pages).take k)) ∧
    (∀ t, threadRows vid t = topRow vid t.top :: t.replies.map (replyRow vid t.top.id)) ∧
    (∀ c, (topRow vid c).reply_parent_id = none ∧ (topRow vid c).is_reply = false) ∧
    (∀ pid c, (replyRow vid pid c).reply_parent_id = some pid ∧
      (replyRow vid pid c).is_reply = true) ∧
    (∀ c, (topRow vid c).comment_id = c.id) ∧
    fetch_comments vid pages T = fetch_comments_for_video vid pages T := by
  exact ⟨fetchPages_take vid pages 0 T, fun t => rfl, fun c => ⟨rfl, rfl⟩,
    fun pid c => ⟨rfl, rfl⟩, fun c => rfl, rfl⟩

/-- Witness for C2: on the concrete two-page source `pagesW` (4 rows
total), a target of 3 is met, and a target of 9 exhausts the source and
returns exactly the 4 available rows. -/
theorem C2_collector_target_and_termination_w :
    (3 ≤ totalAvail pagesW ∧ 3 ≤ (fetch_comments_for_video "v" pagesW 3).1.length) ∧
    (totalAvail pagesW < 9 ∧
      (fetch_comments_for_video "v" pagesW 9).1.length = totalAvail pagesW ∧
      (fetch_comments_for_video "v" pagesW 9).2 = max 1 pagesW.length) := by
  constructor
  · have h : 3 ≤ totalAvail pagesW := by decide
    exact ⟨h, (C2_collector_target_and_termination "v" pagesW 3).1 h⟩
  · have h : totalAvail pagesW < 9 := by decide
    exact ⟨h, (C2_collector_target_and_termination "v" pagesW 9).2.1 h⟩

/-! ## Selector lemmas -/

theorem escalateStep_eq (s s2 : List (String × VMeta)) (minC : Nat) (b : Buckets)
    (vm : String × VMeta) :
    escalateStep s s2 minC b vm =
      if minC ≤ vm.2.commentCount then
        if vm.1 ∈ (lookupV b vm.2.channelId).getD [] then Except.ok b
        else
          match resortBucket s s2 ((lookupV b vm.2.channelId).getD [] ++ [vm.1]) with
          | Except.error e => Except.error e
          | Except.ok out => Except.ok (setB b vm.2.channelId out)
      else Except.ok b := rfl

theorem escalateList_nil (s s2 : List (String × VMeta)) (minC : Nat) (b : Buckets) :
    escalateList s s2 minC [] b = Except.ok b := rfl

theorem escalateList_cons (s s2 : List (String × VMeta)) (minC : Nat)
    (x : String × VMeta) (xs : List (String × VMeta)) (b : Buckets) :
    escalateList s s2 minC (x :: xs) b =
      match escalateStep s s2 minC b x with
      | Except.error e => Except.error e
      | Except.ok b2 => escalateList s s2 minC xs b2 := rfl

theorem runTiers_nil (env : YTEnv) (s : List (String × VMeta)) (minC : Nat) (b : Buckets) :
    runTiers env s minC [] b = Except.ok (fallbackB b) := rfl

theorem runTiers_cons (env : YTEnv) (s : List (String × VMeta)) (minC : Nat)
    (ordv : String) (rest : List String) (b : Buckets) :
    runTiers env s minC (ordv :: rest) b =
      match escalateTier s (video_stats env (env.search ordv)) minC b with
      | Except.error e => Except.error e
      | Except.ok b2 =>
        if 5 ≤ (selectedOf b2).length then Except.ok ((selectedOf b2).take 5)
        else runTiers env s minC rest b2 := rfl

theorem pick_eq (env : YTEnv) (minC : Nat) :
    pick_5_channels_5_videos env minC =
      if 5 ≤ (selectedOf (tier0Buckets env minC)).length
      then Except.ok ((selectedOf (tier0Buckets env minC)).take 5)
      else runTiers env (stats0 env) minC ["viewCount", "date", "rating"]
        (tier0Buckets env minC) := rfl

theorem resolveKeys_mem (s s2 : List (String × VMeta)) :
    ∀ (vs : List String) (ps : List (String × Nat)),
    resolveKeys s s2 vs = some ps → ∀ pr ∈ ps, pr.1 ∈ vs := by
  intro vs
  induction vs with
  | nil =>
    intro ps h pr hpr
    simp [resolveKeys] at h
    subst h
    simp at hpr
  | cons v rest ih =>
    intro ps h pr hpr
    cases hm : mergeKey s s2 v with
    | none => simp [resolveKeys, hm] at h
    | some c =>
      cases hr : resolveKeys s s2 rest with
      | none => simp [resolveKeys, hm, hr] at h
      | some ps2 =>
        simp only [resolveKeys, hm, hr] at h
        have he := Option.some.inj h
        subst he
        rcases List.mem_cons.mp hpr with h2 | h2
        · subst h2; exact List.mem_cons_self _ _
        · exact List.mem_cons_of_mem _ (ih ps2 hr pr h2)

theorem resolveKeys_length (s s2 : List (String × VMeta)) :
    ∀ (vs : List String) (ps : List (String × Nat)),
    resolveKeys s s2 vs = some ps → ps.length = vs.length := by
  intro vs
  induction vs with
  | nil =>
    intro ps h
    simp [resolveKeys] at h
    subst h
    rfl
  | cons v rest ih =>
    intro ps h
    cases hm : mergeKey s s2 v with
    | none => simp [resolveKeys, hm] at h
    | some c =>
      cases hr : resolveKeys s s2 rest with
      | none => simp [resolveKeys, hm, hr] at h
      | some ps2 =>
        simp only [resolveKeys, hm, hr] at h
        have he := Option.some.inj h
        subst he
        simp [ih ps2 hr]

theorem resortBucket_subset {s s2 : List (String × VMeta)} {vs out : List String}
    (h : resortBucket s s2 vs = Except.ok out) : ∀ u ∈ out, u ∈ vs := by
  intro u hu
  unfold resortBucket at h
  cases hk : resolveKeys s s2 vs with
  | none => rw [hk] at h; simp at h
  | some ps =>
    rw [hk] at h
    simp only [Except.ok.injEq] at h
    subst h
    have h1 : u ∈ (sortDesc Prod.snd ps).map Prod.fst := List.take_subset _ _ hu
    obtain ⟨pr, hpr, hfst⟩ := List.mem_map.mp h1
    subst hfst
    exact resolveKeys_mem s s2 vs ps hk pr (mem_sortDesc.mp hpr)

theorem resortBucket_length {s s2 : List (String × VMeta)} {vs out : List String}
    (h : resortBucket s s2 vs = Except.ok out) : out.length = min 5 vs.length := by
  unfold resortBucket at h
  cases hk : resolveKeys s s2 vs with
  | none => rw [hk] at h; simp at h
  | some ps =>
    rw [hk] at h
    simp only [Except.ok.injEq] at h
    subst h
    rw [List.length_take, List.length_map, length_sortDesc, resolveKeys_length s s2 vs ps hk]

theorem allVids_subset {P : String → Prop} {b b2 : Buckets}
    (hsub : ∀ p ∈ b2, p ∈ b) (h : AllVids P b) : AllVids P b2 :=
  fun p hp v hv => h p (hsub p hp) v hv

theorem allLe5_subset {b b2 : Buckets} (hsub : ∀ p ∈ b2, p ∈ b) (h : AllLe5 b) :
    AllLe5 b2 :=
  fun p hp => h p (hsub p hp)

theorem mem_selectedOf {b : Buckets} {p : String × List String} (h : p ∈ selectedOf b) :
    p ∈ b ∧ p.2.length = 5 := by
  have := List.mem_filter.mp h
  refine ⟨this.1, ?_⟩
  have h2 := this.2
  simpa using h2

theorem mem_fallbackB {b : Buckets} {p : String × List String} (h : p ∈ fallbackB b) :
    p ∈ b :=
  mem_sortDesc.mp (List.take_subset _ _ h)

theorem allVids_appendB {P : String → Prop} {b : Buckets} {ch v : String}
    (hb : AllVids P b) (hv : P v) : AllVids P (appendB b ch v) := by
  intro p hp u hu
  rcases mem_appendB_vals p hp u hu with ⟨q, hq, hu2⟩ | h2
  · exact hb q hq u hu2
  · exact h2 ▸ hv

theorem allVids_setB {P : String → Prop} {b : Buckets} {ch : String} {vs : List String}
    (hb : AllVids P b) (hvs : ∀ u ∈ vs, P u) : AllVids P (setB b ch vs) := by
  intro p hp u hu
  rcases mem_setB p hp with h | h
  · subst h; exact hvs u hu
  · exact hb p h u hu

theorem allVids_groupQualifying (env : YTEnv) (minC : Nat) :
    ∀ (s : List (String × VMeta)), (∀ vm ∈ s, env.stats vm.1 = some vm.2) →
    ∀ (b0 : Buckets), AllVids (qualifies env minC) b0 →
    AllVids (qualifies env minC)
      (s.foldl (fun b vm =>
        if minC ≤ vm.2.commentCount then appendB b vm.2.channelId vm.1 else b) b0) := by
  intro s
  induction s with
  | nil => intro _ b0 h0; simpa using h0
  | cons vm rest ih =>
    intro hs b0 h0
    simp only [List.foldl_cons]
    apply ih (fun x hx => hs x (List.mem_cons_of_mem _ hx))
    by_cases hq : minC ≤ vm.2.commentCount
    · rw [if_pos hq]
      exact allVids_appendB h0 ⟨vm.2, hs vm (List.mem_cons_self _ _), hq⟩
    · rwa [if_neg hq]

theorem allVids_capBuckets {P : String → Prop} {b : Buckets}
    (s : List (String × VMeta)) (hb : AllVids P b) : AllVids P (capBuckets s b) := by
  intro p hp u hu
  obtain ⟨q, hq, hqe⟩ := List.mem_map.mp hp
  subst hqe
  simp only at hu
  have h1 : u ∈ sortDesc (fun v => ((lookupV s v).map VMeta.commentCount).getD 0) q.2 :=
    List.take_subset _ _ hu
  exact hb q hq u (mem_sortDesc.mp h1)

theorem allVids_tier0 (env : YTEnv) (minC : Nat) :
    AllVids (qualifies env minC) (tier0Buckets env minC) := by
  apply allVids_capBuckets
  apply allVids_groupQualifying env minC (stats0 env)
  · intro vm hvm
    exact (mem_videoStatsOn (by
      obtain ⟨a, b⟩ := vm
      exact hvm)).1
  · intro p hp
    simp at hp

theorem escalateStep_allVids {env : YTEnv} {minC : Nat} {s s2 : List (String × VMeta)}
    {b b' : Buckets} {vm : String × VMeta}
    (hst : escalateStep s s2 minC b vm = Except.ok b')
    (hvm : env.stats vm.1 = some vm.2)
    (hb : AllVids (qualifies env minC) b) : AllVids (qualifies env minC) b' := by
  rw [escalateStep_eq] at hst
  by_cases hq : minC ≤ vm.2.commentCount
  · rw [if_pos hq] at hst
    by_cases hmem : vm.1 ∈ (lookupV b vm.2.channelId).getD []
    · rw [if_pos hmem] at hst
      have he := Except.ok.inj hst
      subst he
      exact hb
    · rw [if_neg hmem] at hst
      cases hres : resortBucket s s2 ((lookupV b vm.2.channelId).getD [] ++ [vm.1]) with
      | error e => rw [hres] at hst; simp at hst
      | ok out =>
        rw [hres] at hst
        have he := Except.ok.inj hst
        subst he
        apply allVids_setB hb
        intro u hu
        rcases List.mem_append.mp (resortBucket_subset hres u hu) with h | h
        · cases hcur : lookupV b vm.2.channelId with
          | none => rw [hcur] at h; simp at h
          | some cur0 =>
            rw [hcur] at h
            exact hb _ (lookupV_mem hcur) u (by simpa using h)
        · have hu2 : u = vm.1 := by simpa using h
          subst hu2
          exact ⟨vm.2, hvm, hq⟩
  · rw [if_neg hq] at hst
    have he := Except.ok.inj hst
    subst he
    exact hb

theorem escalateStep_mono {s s2 : List (String × VMeta)} {minC : Nat}
    {b b' : Buckets} {vm : String × VMeta}
    (hst : escalateStep s s2 minC b vm = Except.ok b') (hb5 : AllLe5 b) :
    AllLe5 b' ∧
    ∀ ch vs, lookupV b ch = some vs →
      ∃ vs', lookupV b' ch = some vs' ∧ vs.length ≤ vs'.length := by
  rw [escalateStep_eq] at hst
  by_cases hq : minC ≤ vm.2.commentCount
  case neg =>
    rw [if_neg hq] at hst
    have he := Except.ok.inj hst
    subst he
    exact ⟨hb5, fun ch vs h => ⟨vs, h, le_refl _⟩⟩
  rw [if_pos hq] at hst
  by_cases hmem : vm.1 ∈ (lookupV b vm.2.channelId).getD []
  · rw [if_pos hmem] at hst
    have he := Except.ok.inj hst
    subst he
    exact ⟨hb5, fun ch vs h => ⟨vs, h, le_refl _⟩⟩
  · rw [if_neg hmem] at hst
    cases hres : resortBucket s s2 ((lookupV b vm.2.channelId).getD [] ++ [vm.1]) with
    | error e => rw [hres] at hst; simp at hst
    | ok out =>
      rw [hres] at hst
      have he := Except.ok.inj hst
      subst he
      have hlen := resortBucket_length hres
      rw [List.length_append, List.length_singleton] at hlen
      constructor
      · intro p hp
        rcases mem_setB p hp with h | h
        · subst h
          show out.length ≤ 5
          omega
        · exact hb5 p h
      · intro ch vs hchvs
        by_cases hch : ch = vm.2.channelId
        · refine ⟨out, ?_, ?_⟩
          · rw [hch]
            exact lookupV_setB_self b vm.2.channelId out
          · have hcur : (lookupV b vm.2.channelId).getD [] = vs := by
              rw [← hch, hchvs]
              rfl
            rw [hcur] at hlen
            have hv5 : vs.length ≤ 5 := hb5 (ch, vs) (lookupV_mem hchvs)
            omega
        · exact ⟨vs, by rw [lookupV_setB_ne b vm.2.channelId ch out hch]; exact hchvs,
            le_refl _⟩

theorem escalateList_allVids {env : YTEnv} {minC : Nat} {s s2 : List (String × VMeta)} :
    ∀ (l : List (String × VMeta)) (b b' : Buckets),
    escalateList s s2 minC l b = Except.ok b' →
    (∀ vm ∈ l, env.stats vm.1 = some vm.2) →
    AllVids (qualifies env minC) b → AllVids (qualifies env minC) b' := by
  intro l
  induction l with
  | nil =>
    intro b b' h _ hb
    rw [escalateList_nil] at h
    have he := Except.ok.inj h
    subst he
    exact hb
  | cons x xs ih =>
    intro b b' h hl hb
    rw [escalateList_cons] at h
    cases hs : escalateStep s s2 minC b x with
    | error e => rw [hs] at h; simp at h
    | ok b2 =>
      rw [hs] at h
      exact ih b2 b' h (fun vm hvm => hl vm (List.mem_cons_of_mem _ hvm))
        (escalateStep_allVids hs (hl x (List.mem_cons_self _ _)) hb)

theorem escalateList_mono {s s2 : List (String × VMeta)} {minC : Nat} :
    ∀ (l : List (String × VMeta)) (b b' : Buckets),
    escalateList s s2 minC l b = Except.ok b' → AllLe5 b →
    AllLe5 b' ∧ ∀ ch vs, lookupV b ch = some vs →
      ∃ vs', lookupV b' ch = some vs' ∧ vs.length ≤ vs'.length := by
  intro l
  induction l with
  | nil =>
    intro b b' h hb5
    rw [escalateList_nil] at h
    have he := Except.ok.inj h
    subst he
    exact ⟨hb5, fun ch vs hh => ⟨vs, hh, le_refl _⟩⟩
  | cons x xs ih =>
    intro b b' h hb5
    rw [escalateList_cons] at h
    cases hs : escalateStep s s2 minC b x with
    | error e => rw [hs] at h; simp at h
    | ok b2 =>
      rw [hs] at h
      obtain ⟨h25, hmono1⟩ := escalateStep_mono hs hb5
      obtain ⟨h5f, hmono2⟩ := ih b2 b' h h25
      refine ⟨h5f, fun ch vs hh => ?_⟩
      obtain ⟨vs2, hv2, hl1⟩ := hmono1 ch vs hh
      obtain ⟨vs3, hv3, hl2⟩ := hmono2 ch vs2 hv2
      exact ⟨vs3, hv3, le_trans hl1 hl2⟩

theorem capBuckets_le5 (s : List (String × VMeta)) (b : Buckets) :
    AllLe5 (capBuckets s b) := by
  intro p hp
  obtain ⟨q, hq, hqe⟩ := List.mem_map.mp hp
  subst hqe
  show ((sortDesc (fun v => ((lookupV s v).map VMeta.commentCount).getD 0) q.2).take 5).length ≤ 5
  rw [List.length_take]
  omega

theorem tier0_le5 (env : YTEnv) (minC : Nat) : AllLe5 (tier0Buckets env minC) :=
  capBuckets_le5 (stats0 env) (groupQualifying (stats0 env) minC)

theorem runTiers_ok (env : YTEnv) (s : List (String × VMeta)) (minC : Nat) :
    ∀ (ords : List String) (b plan : Buckets),
    runTiers env s minC ords b = Except.ok plan →
    AllVids (qualifies env minC) b → AllLe5 b →
    AllVids (qualifies env minC) plan ∧ AllLe5 plan ∧ plan.length ≤ 5 := by
  intro ords
  induction ords with
  | nil =>
    intro b plan h hv h5
    rw [runTiers_nil] at h
    have he := Except.ok.inj h
    subst he
    refine ⟨allVids_subset (fun p hp => mem_fallbackB hp) hv,
      allLe5_subset (fun p hp => mem_fallbackB hp) h5, ?_⟩
    show ((sortDesc (fun p => p.2.length) b).take 5).length ≤ 5
    rw [List.length_take]
    omega
  | cons ordv rest ih =>
    intro b plan h hv h5
    rw [runTiers_cons] at h
    cases ht : escalateTier s (video_stats env (env.search ordv)) minC b with
    | error e => rw [ht] at h; simp at h
    | ok b2 =>
      rw [ht] at h
      have h2 : (if 5 ≤ (selectedOf b2).length then Except.ok ((selectedOf b2).take 5)
          else runTiers env s minC rest b2) = Except.ok plan := h
      have hv2 : AllVids (qualifies env minC) b2 :=
        escalateList_allVids (video_stats env (env.search ordv)) b b2 ht
          (fun vm hvm => (mem_videoStatsOn (by obtain ⟨a, m⟩ := vm; exact hvm)).1) hv
      have h52 : AllLe5 b2 :=
        (escalateList_mono (video_stats env (env.search ordv)) b b2 ht h5).1
      by_cases hsel : 5 ≤ (selectedOf b2).length
      · rw [if_pos hsel] at h2
        have he := Except.ok.inj h2
        subst he
        have hsub : ∀ p ∈ (selectedOf b2).take 5, p ∈ b2 :=
          fun p hp => (mem_selectedOf (List.take_subset _ _ hp)).1
        refine ⟨allVids_subset hsub hv2, allLe5_subset hsub h52, ?_⟩
        rw [List.length_take]
        omega
      · rw [if_neg hsel] at h2
        exact ih b2 plan h2 hv2 h52

theorem pick_ok (env : YTEnv) (minC : Nat) (plan : Buckets)
    (h : pick_5_channels_5_videos env minC = Except.ok plan) :
    AllVids (qualifies env minC) plan ∧ AllLe5 plan ∧ plan.length ≤ 5 := by
  rw [pick_eq] at h
  have hv0 := allVids_tier0 env minC
  have h50 := tier0_le5 env minC
  by_cases hsel : 5 ≤ (selectedOf (tier0Buckets env minC)).length
  · rw [if_pos hsel] at h
    have he := Except.ok.inj h
    subst he
    have hsub : ∀ p ∈ (selectedOf (tier0Buckets env minC)).take 5,
        p ∈ tier0Buckets env minC :=
      fun p hp => (mem_selectedOf (List.take_subset _ _ hp)).1
    refine ⟨allVids_subset hsub hv0, allLe5_subset hsub h50, ?_⟩
    rw [List.length_take]
    omega
  · rw [if_neg hsel] at h
    exact runTiers_ok env (stats0 env) minC _ _ plan h hv0 h50

/-- C1: every video identifier appearing in the SelectionPlan returned by
`pick_5_channels_5_videos` --- whether produced by the terminal success
path, any escalation tier, or the final fallback --- has a probed
engagement (comment) count of at least `minC`. -/
theorem C1_selection_respects_min_engagement (env : YTEnv) (minC : Nat) (plan : Buckets)
    (h : pick_5_channels_5_videos env minC = Except.ok plan) :
    ∀ ch vids, (ch, vids) ∈ plan → ∀ v ∈ vids,
      ∃ m, env.stats v = some m ∧ minC ≤ m.commentCount := by
  intro ch vids hmem v hv
  exact (pick_ok env minC plan h).1 (ch, vids) hmem v hv

/-- Witness for C1 on the concrete environment `env1` (fallback path). -/
theorem C1_selection_respects_min_engagement_w :
    pick_5_channels_5_videos env1 25 = Except.ok [("chA", ["v1", "v2"])] ∧
    ∃ m, env1.stats "v1" = some m ∧ 25 ≤ m.commentCount := by
  have hp : pick_5_channels_5_videos env1 25 = Except.ok [("chA", ["v1", "v2"])] := rfl
  exact ⟨hp, C1_selection_respects_min_engagement env1 25 _ hp "chA" ["v1", "v2"]
    (List.mem_cons_self _ _) "v1" (List.mem_cons_self _ _)⟩

/-- C4 counterexample: merging the viewCount tier's candidate c6 (count
100) into channel chC's full tier-0 bucket re-caps the bucket at 5 and
removes the previously qualifying video c5 (count 26 ≥ 25), so escalation
does remove a previously qualifying video from a bucket. -/
theorem C4_cex_merge_removes_video :
    lookupV (tier0Buckets env4 25) "chC" = some ["c1", "c2", "c3", "c4", "c5"] ∧
    escalateTier (stats0 env4) (video_stats env4 (env4.search "viewCount")) 25
        (tier0Buckets env4 25)
      = Except.ok [("chC", ["c6", "c1", "c2", "c3", "c4"])] ∧
    "c5" ∈ (["c1", "c2", "c3", "c4", "c5"] : List String) ∧
    ¬ "c5" ∈ (["c6", "c1", "c2", "c3", "c4"] : List String) := by
  exact ⟨rfl, rfl, by decide, by decide⟩

/-- C4 amended: when a tier merge succeeds, it never removes a channel
and never shrinks any bucket (bucket sizes are monotone and stay capped
at 5); a previously qualifying video can still be displaced from a full
bucket by a higher-engagement newcomer, and the merge can fail when a
re-sort key is unavailable. -/
theorem C4_merge_preserves_channels_and_sizes (s s2 : List (String × VMeta)) (minC : Nat)
    (b b' : Buckets) (h5 : AllLe5 b) (h : escalateTier s s2 minC b = Except.ok b') :
    AllLe5 b' ∧ ∀ ch vs, lookupV b ch = some vs →
      ∃ vs', lookupV b' ch = some vs' ∧ vs.length ≤ vs'.length :=
  escalateList_mono s2 b b' h h5

/-- Witness for the amended C4 on the concrete environment `env4`. -/
theorem C4_merge_preserves_channels_and_sizes_w :
    ∃ vs', lookupV [("chC", ["c6", "c1", "c2", "c3", "c4"])] "chC" = some vs' ∧
      (["c1", "c2", "c3", "c4", "c5"] : List String).length ≤ vs'.length :=
  (C4_merge_preserves_channels_and_sizes (stats0 env4)
      (video_stats env4 (env4.search "viewCount")) 25 (tier0Buckets env4 25)
      [("chC", ["c6", "c1", "c2", "c3", "c4"])] (tier0_le5 env4 25) rfl).2
    "chC" ["c1", "c2", "c3", "c4", "c5"] rfl

/-- C5 counterexample: with `N = 1`, `M = 1` on `env5`, the spec's
qualification rule (a channel qualifies once its bucket reaches exactly
`M` members; at least `N` qualifying channels is terminal success
returning the first `N`) yields channel chA after the primary tier, but
the pipeline --- whose qualification and success counts are hard-coded at
5 --- escalates and returns channel chB instead. -/
theorem C5_cex_hardcoded_counts :
    specTier0Terminal env5 25 1 1 = some [("chA", ["a1"])] ∧
    selectPipeline env5 25 1 1 = Except.ok [("chB", ["b1"])] ∧
    ("chB", (["b1"] : List String)) ≠ ("chA", ["a1"]) := by
  exact ⟨rfl, rfl, by decide⟩

/-- C5 amended: qualification and terminal success are hard-coded at
bucket size 5 and channel count 5; the supplied `N` and `M` only truncate
afterwards, so a returned plan has at most `min N 5` entries of at most
`min M 5` video ids each, and whenever at least 5 channels have tier-0
buckets of exactly 5 videos the selector returns the first 5 of them in
discovery order. -/
theorem C5_shape_and_hardcoded_qualification (env : YTEnv) (minC N M : Nat)
    (plan : Buckets) (h : selectPipeline env minC N M = Except.ok plan) :
    plan.length ≤ min N 5 ∧ (∀ p ∈ plan, p.2.length ≤ min M 5) ∧
    (5 ≤ (selectedOf (tier0Buckets env minC)).length →
      pick_5_channels_5_videos env minC
        = Except.ok ((selectedOf (tier0Buckets env minC)).take 5)) := by
  have hterm : 5 ≤ (selectedOf (tier0Buckets env minC)).length →
      pick_5_channels_5_videos env minC
        = Except.ok ((selectedOf (tier0Buckets env minC)).take 5) := by
    intro hs
    rw [pick_eq, if_pos hs]
  have hmain : plan.length ≤ min N 5 ∧ (∀ p ∈ plan, p.2.length ≤ min M 5) := by
    unfold selectPipeline at h
    cases hp : pick_5_channels_5_videos env minC with
    | error e => rw [hp] at h; simp at h
    | ok sel =>
      rw [hp] at h
      have h2 : Except.ok ((sel.take N).map (fun p => (p.1, p.2.take M)))
          = Except.ok plan := h
      have he := Except.ok.inj h2
      subst he
      obtain ⟨_, hle5, hlen5⟩ := pick_ok env minC sel hp
      constructor
      · rw [List.length_map, List.length_take]
        omega
      · intro p hp2
        obtain ⟨q, hq, hqe⟩ := List.mem_map.mp hp2
        subst hqe
        have hqin : q ∈ sel := List.take_subset _ _ hq
        have hq5 := hle5 q hqin
        show (q.2.take M).length ≤ min M 5
        rw [List.length_take]
        omega
  exact ⟨hmain.1, hmain.2, hterm⟩

/-- Witness for the amended C5 on `env1` with `N = 3`, `M = 1`. -/
theorem C5_shape_and_hardcoded_qualification_w :
    selectPipeline env1 25 3 1 = Except.ok [("chA", ["v1"])] ∧
    ([("chA", ["v1"])] : Buckets).length ≤ min 3 5 := by
  have hp : selectPipeline env1 25 3 1 = Except.ok [("chA", ["v1"])] := rfl
  exact ⟨hp, (C5_shape_and_hardcoded_qualification env1 25 3 1 _ hp).1⟩

/-- C8 (code bug): on `env8` the qualification condition is unsatisfiable
at every tier (no bucket ever reaches 5 videos; the tier-0 selected list
is empty), yet the selector raises instead of reaching the guaranteed
fallback: during the date tier, the re-sort key for video x1 --- probed
only in the earlier viewCount tier --- is found in neither the primary
stats dict nor the date tier's stats dict, so
`stats.get(v, stats2.get(v))['commentCount']` raises a `TypeError`. -/
theorem C8_unsatisfiable_crashes_instead_of_fallback :
    pick_5_channels_5_videos env8 25 = Except.error () ∧
    selectedOf (tier0Buckets env8 25) = [] := ⟨rfl, rfl⟩

/-! ## Deferred backfill and Rappler lemmas -/

/-- C9: both deferred backfill passes are per-row maps over the rows; the
per-row step modifies only `video_title` (scraper variant), respectively
`video_title` plus the two uploader fields (top-up variant), of rows
whose video id is a key of the fetched metadata map; a row whose video id
is absent from the metadata map is left entirely unchanged. -/
theorem C9_backfill_frame (f : String → Option VMeta) (rows : List CommentRow)
    (meta : List (String × VMeta)) (r : CommentRow) :
    fill_video_titles f rows = rows.map (fillTitleStep (videoStatsOn f (rowVids rows))) ∧
    fill_video_meta f rows = rows.map (fillMetaStep (videoStatsOn f (rowVids rows))) ∧
    exceptTitle (fillTitleStep meta r) = exceptTitle r ∧
    exceptMeta (fillMetaStep meta r) = exceptMeta r ∧
    (lookupV meta r.video_id = none →
      fillTitleStep meta r = r ∧ fillMetaStep meta r = r) := by
  refine ⟨rfl, rfl, ?_, ?_, ?_⟩
  · unfold fillTitleStep
    cases lookupV meta r.video_id <;> rfl
  · unfold fillMetaStep
    cases lookupV meta r.video_id <;> rfl
  · intro h
    constructor
    · unfold fillTitleStep
      rw [h]
    · unfold fillMetaStep
      rw [h]

/-- Witness for C9: a row whose video id has no metadata is unchanged. -/
theorem C9_backfill_frame_w :
    lookupV ([] : List (String × VMeta)) (topRow "vw" (cW "cw")).video_id = none ∧
    fillTitleStep [] (topRow "vw" (cW "cw")) = topRow "vw" (cW "cw") ∧
    fillMetaStep [] (topRow "vw" (cW "cw")) = topRow "vw" (cW "cw") := by
  have h : lookupV ([] : List (String × VMeta)) (topRow "vw" (cW "cw")).video_id = none := rfl
  have happ := (C9_backfill_frame (fun _ => none) [] [] (topRow "vw" (cW "cw"))).2.2.2.2 h
  exact ⟨h, happ.1, happ.2⟩

theorem optTruthy_iff {o : Option String} :
    optTruthy o = true ↔ ∃ s, o = some s ∧ ¬ s = "" := by
  cases o with
  | none => simp [optTruthy]
  | some s => simp [optTruthy]

theorem rapplerInner_inv (env : RapplerEnv) (P : ArticleData → Prop)
    (hP : ∀ d, (optTruthy d.title && optTruthy d.text) = true → P d) :
    ∀ (links : List String) (acc : List ArticleData), (∀ r ∈ acc, P r) →
    ∀ r ∈ links.foldl
      (fun rows link =>
        match env.article link with
        | some d => if optTruthy d.title && optTruthy d.text then rows ++ [d] else rows
        | none => rows) acc, P r := by
  intro links
  induction links with
  | nil => intro acc hacc r hr; exact hacc r hr
  | cons l rest ih =>
    intro acc hacc r hr
    simp only [List.foldl_cons] at hr
    refine ih _ ?_ r hr
    cases ha : env.article l with
    | none => simpa [ha] using hacc
    | some d =>
      by_cases hd : (optTruthy d.title && optTruthy d.text) = true
      · simp only [ha, if_pos hd]
        intro r2 hr2
        rcases List.mem_append.mp hr2 with h2 | h2
        · exact hacc r2 h2
        · have : r2 = d := by simpa using h2
          exact this ▸ hP d hd
      · simp only [ha, if_neg hd]
        exact hacc

theorem rapplerOuter_inv (env : RapplerEnv) (P : ArticleData → Prop)
    (hP : ∀ d, (optTruthy d.title && optTruthy d.text) = true → P d) :
    ∀ (pgs : List Nat) (acc : List ArticleData), (∀ r ∈ acc, P r) →
    ∀ r ∈ pgs.foldl
      (fun rows page =>
        (env.listing page).foldl
          (fun rows link =>
            match env.article link with
            | some d => if optTruthy d.title && optTruthy d.text then rows ++ [d] else rows
            | none => rows) rows) acc, P r := by
  intro pgs
  induction pgs with
  | nil => intro acc hacc r hr; exact hacc r hr
  | cons pg rest ih =>
    intro acc hacc r hr
    simp only [List.foldl_cons] at hr
    exact ih _ (fun r2 hr2 => rapplerInner_inv env P hP (env.listing pg) acc hacc r2 hr2) r hr

/-- C10: every article row in the Rappler scraper's output has a
non-null, non-empty title and a non-null, non-empty body text; an
extracted article with a missing (or empty) title or body is dropped
rather than persisted. -/
theorem C10_rappler_rows_nonempty (env : RapplerEnv) (pages : Nat) :
    ∀ r ∈ scrape_rappler env pages,
      (∃ t, r.title = some t ∧ ¬ t = "") ∧ (∃ x, r.text = some x ∧ ¬ x = "") := by
  intro r hr
  have hP : ∀ d : ArticleData, (optTruthy d.title && optTruthy d.text) = true →
      (∃ t, d.title = some t ∧ ¬ t = "") ∧ (∃ x, d.text = some x ∧ ¬ x = "") := by
    intro d hd
    rw [Bool.and_eq_true] at hd
    exact ⟨optTruthy_iff.mp hd.1, optTruthy_iff.mp hd.2⟩
  exact rapplerOuter_inv env _ hP (List.range' 1 pages) []
    (by intro r2 hr2; simp at hr2) r hr

/-- Witness for C10 on the concrete environment `envR`: the complete
article u1 is kept (and its title is non-null and non-empty), while the
body-less article u2 is dropped. -/
theorem C10_rappler_rows_nonempty_w :
    (⟨"u1", some "T1", some "2024", some "B1", none, none⟩ : ArticleData)
        ∈ scrape_rappler envR 1 ∧
    (∃ t, (⟨"u1", some "T1", some "2024", some "B1", none, none⟩ : ArticleData).title
        = some t ∧ ¬ t = "") ∧
    ¬ (∃ r ∈ scrape_rappler envR 1, r.link = "u2") := by
  have hm : (⟨"u1", some "T1", some "2024", some "B1", none, none⟩ : ArticleData)
      ∈ scrape_rappler envR 1 := by decide
  refine ⟨hm, (C10_rappler_rows_nonempty envR 1 _ hm).1, by decide⟩

/-! ## Top-up lemmas -/

theorem uplStep_video_id (meta : List (String × VMeta)) (vid : String) (r : CommentRow) :
    (uplStep meta vid r).video_id = r.video_id := by
  unfold uplStep
  cases lookupV meta vid <;> rfl

theorem fillMetaStep_video_id (meta : List (String × VMeta)) (r : CommentRow) :
    (fillMetaStep meta r).video_id = r.video_id := by
  unfold fillMetaStep
  cases lookupV meta r.video_id <;> rfl

theorem collectedRows_video_id (env : TopupEnv) (meta : List (String × VMeta))
    (vid : String) : ∀ r ∈ collectedRows env meta vid, r.video_id = vid := by
  intro r hr
  obtain ⟨r1, hr1, hre⟩ := List.mem_map.mp hr
  subst hre
  rw [uplStep_video_id]
  obtain ⟨r0, hr0, hre0⟩ := List.mem_map.mp hr1
  subst hre0
  rw [fillMetaStep_video_id]
  exact fetch_comments_video_id vid _ _ r0 hr0

theorem collectedRows_upl {env : TopupEnv} {meta : List (String × VMeta)} {vid : String}
    {m : VMeta} (hlk : lookupV meta vid = some m) :
    ∀ r ∈ collectedRows env meta vid, r.video_uploader_channel_id = some m.channelId := by
  intro r hr
  obtain ⟨r1, hr1, hre⟩ := List.mem_map.mp hr
  subst hre
  unfold uplStep
  rw [hlk]

theorem topupChannel_eq (env : TopupEnv) (st : TopupState) (chId : String) :
    topupChannel env st chId =
      if 5 - ((lookupV st.per_ch chId).getD []).length = 0 then st
      else
        ((sortDesc
            (fun v => ((lookupV (videoStatsOn env.stats (env.channelVideos chId)) v).map
              VMeta.commentCount).getD 0)
            ((env.channelVideos chId).filter (fun v =>
              decide (MIN_COMMENTS ≤
                  ((lookupV (videoStatsOn env.stats (env.channelVideos chId)) v).map
                    VMeta.commentCount).getD 0)
                && decide (¬ v ∈ st.existing_vids)))).take
          (5 - ((lookupV st.per_ch chId).getD []).length)).foldl
          (collectVideo env chId (videoStatsOn env.stats (env.channelVideos chId))) st := rfl

theorem collectFold_inv (env : TopupEnv) (existing : List CommentRow) (chId : String)
    (meta : List (String × VMeta)) :
    ∀ (pick : List String) (st : TopupState), TopupInv env existing st →
    pick.Nodup →
    (∀ v ∈ pick, ¬ v ∈ st.existing_vids ∧ ¬ v = "" ∧
      ∃ m, env.stats v = some m ∧ lookupV meta v = some m) →
    TopupInv env existing (pick.foldl (collectVideo env chId meta) st) := by
  intro pick
  induction pick with
  | nil => intro st hinv _ _; exact hinv
  | cons v rest ih =>
    intro st hinv hnd hall
    obtain ⟨hvnotin, hvne, m, hm, hlk⟩ := hall v (List.mem_cons_self _ _)
    obtain ⟨hLognd, hInit, hLogEx, hLogNotInit, hAdded⟩ := hinv
    have hvnotlog : ¬ v ∈ st.fetchedLog := fun hvl => hvnotin (hLogEx v hvl)
    simp only [List.foldl_cons]
    apply ih
    · refine ⟨?_, ?_, ?_, ?_, ?_⟩
      · show (st.fetchedLog ++ [v]).Nodup
        rw [List.nodup_append]
        refine ⟨hLognd, List.nodup_singleton v, ?_⟩
        intro a ha hb
        simp only [List.mem_singleton] at hb
        subst hb
        exact hvnotlog ha
      · intro u hu
        show u ∈ insertS st.existing_vids v
        exact insertS_mem.mpr (Or.inr (hInit u hu))
      · intro u hu
        show u ∈ insertS st.existing_vids v
        rcases List.mem_append.mp hu with h | h
        · exact insertS_mem.mpr (Or.inr (hLogEx u h))
        · have huv : u = v := by simpa using h
          exact insertS_mem.mpr (Or.inl huv)
      · intro u hu
        rcases List.mem_append.mp hu with h | h
        · exact hLogNotInit u h
        · have huv : u = v := by simpa using h
          subst huv
          intro hmem
          exact hvnotin (hInit u hmem)
      · intro r hr
        rcases List.mem_append.mp hr with h | h
        · obtain ⟨h1, h2, h3⟩ := hAdded r h
          exact ⟨List.mem_append.mpr (Or.inl h1), h2, h3⟩
        · have hrv : r.video_id = v := collectedRows_video_id env meta v r h
          refine ⟨?_, ?_, ?_⟩
          · rw [hrv]
            exact List.mem_append.mpr (Or.inr (List.mem_singleton.mpr rfl))
          · rw [hrv]
            exact hvne
          · rw [hrv]
            exact ⟨m, hm, collectedRows_upl hlk r h⟩
    · exact (List.nodup_cons.mp hnd).2
    · intro u hu
      obtain ⟨h1, h2, h3⟩ := hall u (List.mem_cons_of_mem _ hu)
      refine ⟨?_, h2, h3⟩
      intro hmem
      rcases insertS_mem.mp hmem with h | h
      · exact (List.nodup_cons.mp hnd).1 (h ▸ hu)
      · exact h1 h

theorem topupChannel_inv (env : TopupEnv) (existing : List CommentRow)
    (hN : ∀ ch, (env.channelVideos ch).Nodup)
    (hE : ∀ ch, ¬ "" ∈ env.channelVideos ch)
    (chId : String) (st : TopupState) (hinv : TopupInv env existing st) :
    TopupInv env existing (topupChannel env st chId) := by
  rw [topupChannel_eq]
  by_cases hneed : 5 - ((lookupV st.per_ch chId).getD []).length = 0
  · rw [if_pos hneed]
    exact hinv
  · rw [if_neg hneed]
    apply collectFold_inv env existing chId _ _ st hinv
    · -- the picked list is duplicate-free
      apply List.Nodup.sublist (List.take_sublist _ _)
      apply nodup_sortDesc
      exact (hN chId).filter _
    · intro v hv
      have hv1 : v ∈ (env.channelVideos chId).filter (fun v =>
          decide (MIN_COMMENTS ≤
              ((lookupV (videoStatsOn env.stats (env.channelVideos chId)) v).map
                VMeta.commentCount).getD 0)
            && decide (¬ v ∈ st.existing_vids)) :=
        mem_sortDesc.mp (List.take_subset _ _ hv)
      obtain ⟨hvin, hpred⟩ := List.mem_filter.mp hv1
      rw [Bool.and_eq_true, decide_eq_true_iff, decide_eq_true_iff] at hpred
      obtain ⟨hge, hnotin⟩ := hpred
      refine ⟨hnotin, ?_, ?_⟩
      · intro hveq
        exact hE chId (hveq ▸ hvin)
      · rw [lookupV_videoStatsOn, if_pos hvin] at hge
        cases hst : env.stats v with
        | none =>
          rw [hst] at hge
          have h25 : MIN_COMMENTS = 25 := rfl
          simp at hge
          omega
        | some m =>
          rw [lookupV_videoStatsOn, if_pos hvin]
          exact ⟨m, rfl, hst⟩

theorem topupPass_inv (env : TopupEnv) (existing : List CommentRow)
    (hN : ∀ ch, (env.channelVideos ch).Nodup)
    (hE : ∀ ch, ¬ "" ∈ env.channelVideos ch) :
    ∀ (name : String) (st : TopupState), TopupInv env existing st →
    TopupInv env existing (topupPass env st name) := by
  intro name st hinv
  cases hf : env.findChannel name with
  | none =>
    have he : topupPass env st name = st := by unfold topupPass; rw [hf]
    rw [he]
    exact hinv
  | some pr =>
    obtain ⟨chId, chT⟩ := pr
    have he : topupPass env st name = topupChannel env st chId := by
      unfold topupPass; rw [hf]
    rw [he]
    exact topupChannel_inv env existing hN hE chId st hinv

theorem topup_run_inv (env : TopupEnv) (names : List String) (existing : List CommentRow)
    (hN : ∀ ch, (env.channelVideos ch).Nodup)
    (hE : ∀ ch, ¬ "" ∈ env.channelVideos ch) :
    TopupInv env existing (topup_run env names existing) := by
  have hinit : TopupInv env existing ⟨initialVids existing, perChInit existing, [], []⟩ := by
    refine ⟨List.nodup_nil, fun v hv => hv, ?_, ?_, ?_⟩
    · intro v hv; simp at hv
    · intro v hv; simp at hv
    · intro r hr; simp at hr
  show TopupInv env existing
    (names.foldl (topupPass env) ⟨initialVids existing, perChInit existing, [], []⟩)
  have haux : ∀ (ns : List String) (st : TopupState), TopupInv env existing st →
      TopupInv env existing (ns.foldl (topupPass env) st) := by
    intro ns
    induction ns with
    | nil => intro st h; exact h
    | cons n rest ih =>
      intro st h
      simp only [List.foldl_cons]
      exact ih _ (topupPass_inv env existing hN hE n st h)
  exact haux names _ hinit

theorem mem_initialVids {existing : List CommentRow} {r : CommentRow}
    (h : r ∈ existing) (hne : ¬ r.video_id = "") : r.video_id ∈ initialVids existing := by
  unfold initialVids
  rw [mem_dedupFirst]
  exact List.mem_filterMap.mpr ⟨r, h, by rw [if_neg hne]⟩

/-- C3: across a top-up run no video id is fetched twice --- the fetch log
is duplicate-free and disjoint from the prior corpus's video-id set
(candidates are filtered against it before any fetch, and the set grows
as each video is collected, excluding it for every later channel); the
merged corpus is exactly the prior rows, unchanged and in order, followed
by the appended rows; and if the prior corpus associates each video id
with a single uploader channel, so does the merged corpus.  The
hypotheses state API sanity: one search response never lists the same or
an empty video id twice. -/
theorem C3_topup_no_refetch_additive_consistent (env : TopupEnv) (names : List String)
    (existing : List CommentRow)
    (hN : ∀ ch, (env.channelVideos ch).Nodup)
    (hE : ∀ ch, ¬ "" ∈ env.channelVideos ch)
    (hC : uplConsistent existing) :
    (topup_run env names existing).fetchedLog.Nodup ∧
    (∀ v ∈ (topup_run env names existing).fetchedLog, ¬ v ∈ initialVids existing) ∧
    (topup_main env names existing).1 = existing ++ (topup_run env names existing).added ∧
    (topup_main env names existing).2 = (topup_run env names existing).added ∧
    uplConsistent (topup_main env names existing).1 := by
  obtain ⟨h1, h2, h3, h4, h5⟩ := topup_run_inv env names existing hN hE
  refine ⟨h1, h4, rfl, rfl, ?_⟩
  show uplConsistent (existing ++ (topup_run env names existing).added)
  intro r1 hr1 r2 hr2 hvid
  rcases List.mem_append.mp hr1 with e1 | a1 <;> rcases List.mem_append.mp hr2 with e2 | a2
  · exact hC r1 e1 r2 e2 hvid
  · obtain ⟨hlog2, hne2, m2, hm2, hu2⟩ := h5 r2 a2
    exfalso
    apply h4 r2.video_id hlog2
    rw [← hvid]
    exact mem_initialVids e1 (by rw [hvid]; exact hne2)
  · obtain ⟨hlog1, hne1, m1, hm1, hu1⟩ := h5 r1 a1
    exfalso
    apply h4 r1.video_id hlog1
    rw [hvid]
    exact mem_initialVids e2 (by rw [← hvid]; exact hne1)
  · obtain ⟨hlog1, hne1, m1, hm1, hu1⟩ := h5 r1 a1
    obtain ⟨hlog2, hne2, m2, hm2, hu2⟩ := h5 r2 a2
    rw [hvid] at hm1
    have hmm : m1 = m2 := Option.some.inj (hm1.symm.trans hm2)
    rw [hu1, hu2, hmm]

/-- Witness for C3 on the concrete environment `env3` (two videos are
actually fetched in one pass). -/
theorem C3_topup_no_refetch_additive_consistent_w :
    (∀ ch, (env3.channelVideos ch).Nodup) ∧
    (topup_run env3 ["NewsX"] []).fetchedLog.Nodup ∧
    (topup_run env3 ["NewsX"] []).fetchedLog = ["x1", "x2"] ∧
    (topup_main env3 ["NewsX"] []).1 = [] ++ (topup_run env3 ["NewsX"] []).added ∧
    uplConsistent (topup_main env3 ["NewsX"] []).1 := by
  have hN : ∀ ch, (env3.channelVideos ch).Nodup := by
    intro ch
    show (if ch = "chX" then ["x1", "x2"] else ([] : List String)).Nodup
    split <;> decide
  have hE : ∀ ch, ¬ "" ∈ env3.channelVideos ch := by
    intro ch
    show ¬ "" ∈ (if ch = "chX" then ["x1", "x2"] else ([] : List String))
    split <;> decide
  have hC : uplConsistent ([] : List CommentRow) := by
    intro r hr
    simp at hr
  obtain ⟨h1, h2, h3, h4, h5⟩ :=
    C3_topup_no_refetch_additive_consistent env3 ["NewsX"] [] hN hE hC
  exact ⟨hN, h1, rfl, h3, h5⟩

/-- C7: top-up is idempotent --- when every candidate of every resolvable
target channel either falls below the engagement threshold or is already
in the covered video-id set, the run appends zero rows, fetches nothing,
and leaves the corpus unchanged. -/
theorem C7_topup_idempotent (env : TopupEnv) (names : List String)
    (existing : List CommentRow)
    (hQ : ∀ name ∈ names, ∀ chId chTitle, env.findChannel name = some (chId, chTitle) →
      ∀ v ∈ env.channelVideos chId,
        ((env.stats v).map VMeta.commentCount).getD 0 < MIN_COMMENTS ∨
          v ∈ initialVids existing) :
    (topup_run env names existing).added = [] ∧
    (topup_run env names existing).fetchedLog = [] ∧
    (topup_main env names existing).1 = existing := by
  have hstep : ∀ name ∈ names,
      topupPass env ⟨initialVids existing, perChInit existing, [], []⟩ name
        = ⟨initialVids existing, perChInit existing, [], []⟩ := by
    intro name hname
    cases hf : env.findChannel name with
    | none =>
      unfold topupPass
      rw [hf]
    | some pr =>
      obtain ⟨chId, chTitle⟩ := pr
      have he : topupPass env ⟨initialVids existing, perChInit existing, [], []⟩ name
          = topupChannel env ⟨initialVids existing, perChInit existing, [], []⟩ chId := by
        unfold topupPass
        rw [hf]
      rw [he, topupChannel_eq]
      by_cases hneed : 5 - ((lookupV (perChInit existing) chId).getD []).length = 0
      · rw [if_pos hneed]
      · rw [if_neg hneed]
        have hcand : (env.channelVideos chId).filter (fun v =>
            decide (MIN_COMMENTS ≤
                ((lookupV (videoStatsOn env.stats (env.channelVideos chId)) v).map
                  VMeta.commentCount).getD 0)
              && decide
                (¬ v ∈ (⟨initialVids existing, perChInit existing, [], []⟩
                  : TopupState).existing_vids)) = [] := by
          apply List.filter_eq_nil_iff.mpr
          intro v hv
          rw [Bool.and_eq_true, decide_eq_true_iff, decide_eq_true_iff]
          rintro ⟨hge, hnotin⟩
          rw [lookupV_videoStatsOn, if_pos hv] at hge
          rcases hQ name hname chId chTitle hf v hv with h | h
          · omega
          · exact hnotin h
        rw [hcand]
        have hs : sortDesc
            (fun v => ((lookupV (videoStatsOn env.stats (env.channelVideos chId)) v).map
              VMeta.commentCount).getD 0) ([] : List String) = [] := rfl
        rw [hs, List.take_nil]
        rfl
  have haux : ∀ (ns : List String), (∀ name ∈ ns, ∀ chId chTitle,
        env.findChannel name = some (chId, chTitle) →
        ∀ v ∈ env.channelVideos chId,
          ((env.stats v).map VMeta.commentCount).getD 0 < MIN_COMMENTS ∨
            v ∈ initialVids existing) →
      (∀ name ∈ ns,
        topupPass env ⟨initialVids existing, perChInit existing, [], []⟩ name
          = ⟨initialVids existing, perChInit existing, [], []⟩) →
      ns.foldl (topupPass env) ⟨initialVids existing, perChInit existing, [], []⟩
        = ⟨initialVids existing, perChInit existing, [], []⟩ := by
    intro ns
    induction ns with
    | nil => intro _ _; rfl
    | cons n rest ih =>
      intro hq hs
      simp only [List.foldl_cons]
      rw [hs n (List.mem_cons_self _ _)]
      exact ih (fun x hx => hq x (List.mem_cons_of_mem _ hx))
        (fun x hx => hs x (List.mem_cons_of_mem _ hx))
  have hrun : topup_run env names existing
      = ⟨initialVids existing, perChInit existing, [], []⟩ :=
    haux names hQ hstep
  refine ⟨by rw [hrun], by rw [hrun], ?_⟩
  show existing ++ (topup_run env names existing).added = existing
  rw [hrun]
  simp

/-- Witness for C7 on the concrete environment `env7` with the prior
corpus `[row7]`: r1 is covered, r9 is below threshold, nothing is
appended. -/
theorem C7_topup_idempotent_w :
    (topup_run env7 ["Rappler"] [row7]).added = [] ∧
    (topup_main env7 ["Rappler"] [row7]).1 = [row7] := by
  have hq : ∀ name ∈ ["Rappler"], ∀ chId chTitle,
      env7.findChannel name = some (chId, chTitle) →
      ∀ v ∈ env7.channelVideos chId,
        ((env7.stats v).map VMeta.commentCount).getD 0 < MIN_COMMENTS ∨
          v ∈ initialVids [row7] := by
    intro name hname chId chTitle hf v hv
    have hn : name = "Rappler" := by simpa using hname
    subst hn
    have hf2 : some ("chR", "Rappler") = some (chId, chTitle) := hf
    have hpr := Option.some.inj hf2
    injection hpr with hA hB
    subst hA
    subst hB
    have hv2 : v ∈ ["r1", "r9"] := hv
    rcases List.mem_cons.mp hv2 with h | h
    · subst h
      right
      decide
    · have hv3 : v = "r9" := by simpa using h
      subst hv3
      left
      decide
  obtain ⟨h1, h2, h3⟩ := C7_topup_idempotent env7 ["Rappler"] [row7] hq
  exact ⟨h1, h3⟩
